import Mathlib

/-!
Verification of hcstool (HCS VM lifecycle tool) against its design
specification.  The development shallowly embeds the two source files
(`hcsapi.go` and the lifecycle file) in Lean:

* the declarative VM configuration document (`ComputeSystemSpec` and its
  sub-structures) is embedded with Go maps represented as association lists
  (iteration order fixed, as one transaction observes a single stable order);

* the spec transformers `extractVHDPaths`, `makePathsAbsolute` and
  `injectGPU` are translated directly from the source;

* the creation transaction `CreateAndStartVM` (including `terminateAndClose`
  and `revokeAll`) is embedded as a pure function from an environment of
  call outcomes (`Env`, the fault schedule of the external HCS service) to
  a result plus a trace of the externally visible calls (`Event`);

* the external `filepath.Abs` of the Go standard library on Windows is
  modelled from its documented behaviour (resolve against the working
  directory, then `Clean`), with `goClean` translated from the documented
  `Clean` algorithm for Windows paths with drive-letter volumes.

Calls whose failure is a process-local exhaustion event with no observable
service interaction (JSON marshalling, GUID generation) are treated as
total; JSON parsing happens before the transaction and the embedding takes
the parsed document as input.
-/

namespace Hcstool

/-! ## Windows path model (external collaborator: Go `path/filepath`) -/

/-- Path separator test: Windows treats both slashes as separators. -/
def isSlash (c : Char) : Bool := c == '\\' || c == '/'

/-- The `..` path element as a character list. -/
def dotdot : List Char := ['.', '.']

/-- Modelled from Go `filepath.volumeNameLen` on Windows, restricted to
drive-letter volumes (`C:`); UNC volumes are outside the model. -/
def volumeLen (cs : List Char) : Nat :=
  match cs with
  | a :: b :: _ => if a.isAlpha && b == ':' then 2 else 0
  | _ => 0

/-- Split a character list into path components at separators, dropping
empty components.  `cur` is the reversed partial component. -/
def splitCompsAux : List Char → List Char → List (List Char)
  | cur, [] => if cur = [] then [] else [cur.reverse]
  | cur, c :: rest =>
    if isSlash c then
      if cur = [] then splitCompsAux [] rest
      else cur.reverse :: splitCompsAux [] rest
    else splitCompsAux (c :: cur) rest

def splitComps (cs : List Char) : List (List Char) := splitCompsAux [] cs

/-- A normal path component: neither `.` nor `..`. -/
def normComp (c : List Char) : Bool := c ≠ ['.'] && c ≠ dotdot

/-- One step of the `Clean` element loop, operating on the reversed output
stack: `.` is dropped; `..` pops a normal component, is dropped at the root,
and accumulates otherwise; everything else is pushed. -/
def cleanStep (rooted : Bool) (acc : List (List Char)) (c : List Char) :
    List (List Char) :=
  if c = ['.'] then acc
  else if c = dotdot then
    match acc with
    | [] => if rooted then [] else [dotdot]
    | a :: rest => if a = dotdot then dotdot :: a :: rest else rest
  else c :: acc

/-- The component normalisation of Go `filepath.Clean`. -/
def cleanComps (rooted : Bool) (comps : List (List Char)) : List (List Char) :=
  (comps.foldl (cleanStep rooted) []).reverse

/-- Join components with the Windows separator. -/
def joinComps : List (List Char) → List Char
  | [] => []
  | [c] => c
  | c :: rest => c ++ '\\' :: joinComps rest

/-- Render the post-volume part of a cleaned path. -/
def renderBody (rooted : Bool) (comps : List (List Char)) : List Char :=
  if rooted then '\\' :: joinComps comps
  else if comps = [] then ['.']
  else joinComps comps

/-- Whether the first component contains `:` (Go `Clean` then protects the
path with a leading `.\` so the component is not read back as a volume). -/
def colonHead : List (List Char) → Bool
  | [] => false
  | c :: _ => c.contains ':'

/-- Modelled from Go `filepath.Clean` for Windows paths with drive-letter
volumes: shortest equivalent path, separators normalised to `\`. -/
def goCleanList (cs : List Char) : List Char :=
  match cs.drop (volumeLen cs) with
  | [] => cs ++ ['.']
  | r :: t =>
    let rooted := isSlash r
    let comps := cleanComps rooted (splitComps (r :: t))
    let body := renderBody rooted comps
    let body2 := if volumeLen cs = 0 && !rooted && colonHead comps then
        '.' :: '\\' :: body
      else body
    cs.take (volumeLen cs) ++ body2

def goClean (s : String) : String := String.mk (goCleanList s.data)

/-- Modelled from Go `filepath.IsAbs` on Windows (drive-letter volumes):
a path is absolute when it has a volume followed by a separator. -/
def goIsAbs (s : String) : Bool :=
  let cs := s.data
  let vl := volumeLen cs
  if vl = 0 then false
  else
    match cs.drop vl with
    | [] => false
    | c :: _ => isSlash c

/-- Modelled from Go `filepath.Abs` on Windows: an absolute path is
normalised with `Clean`; a relative path is joined to the working directory
and the result cleaned.  (`Abs` documents itself as joining with the
working directory if necessary and calling `Clean` on the result.) -/
def goAbs (cwd p : String) : String :=
  if goIsAbs p then goClean p
  else goClean (cwd ++ "\\" ++ p)

/-! ### Properties of the path model -/

/-- A well-formed path component: nonempty and separator-free. -/
def goodComp (c : List Char) : Prop := c ≠ [] ∧ ∀ ch ∈ c, isSlash ch = false

theorem splitCompsAux_good (cs : List Char) :
    ∀ cur, (∀ ch ∈ cur, isSlash ch = false) →
      ∀ c ∈ splitCompsAux cur cs, goodComp c := by
  induction cs with
  | nil =>
    intro cur hcur c hc
    by_cases h : cur = []
    · simp [splitCompsAux, h] at hc
    · simp [splitCompsAux, h] at hc
      subst hc
      refine ⟨by simpa using h, ?_⟩
      intro ch hch
      exact hcur ch (List.mem_reverse.mp hch)
  | cons a rest ih =>
    intro cur hcur c hc
    by_cases hs : isSlash a
    · by_cases h : cur = []
      · simp [splitCompsAux, hs, h] at hc
        exact ih [] (by simp) c hc
      · simp [splitCompsAux, hs, h] at hc
        rcases hc with hc | hc
        · subst hc
          refine ⟨by simpa using h, ?_⟩
          intro ch hch
          exact hcur ch (List.mem_reverse.mp hch)
        · exact ih [] (by simp) c hc
    · simp [splitCompsAux, hs] at hc
      refine ih (a :: cur) ?_ c hc
      intro ch hch
      rcases List.mem_cons.mp hch with h | h
      · subst h; simpa using hs
      · exact hcur ch h

theorem splitComps_good (cs : List Char) :
    ∀ c ∈ splitComps cs, goodComp c :=
  splitCompsAux_good cs [] (by simp)

theorem splitCompsAux_chunk (comp : List Char) :
    ∀ (cs cur : List Char), (∀ ch ∈ comp, isSlash ch = false) →
      splitCompsAux cur (comp ++ cs) = splitCompsAux (comp.reverse ++ cur) cs := by
  induction comp with
  | nil => intro cs cur _; simp
  | cons a rest ih =>
    intro cs cur hgood
    have ha : isSlash a = false := hgood a (by simp)
    simp only [List.cons_append, splitCompsAux, ha, Bool.false_eq_true, if_false,
      List.append_eq]
    rw [ih cs (a :: cur) (fun ch hch => hgood ch (by simp [hch]))]
    simp

theorem splitComps_joinComps (comps : List (List Char)) :
    (∀ c ∈ comps, goodComp c) → splitComps (joinComps comps) = comps := by
  induction comps with
  | nil => intro _; simp [splitComps, joinComps, splitCompsAux]
  | cons c rest ih =>
    intro hgood
    obtain ⟨hc, hcf⟩ := hgood c (by simp)
    match rest, ih with
    | [], _ =>
      show splitCompsAux [] (joinComps [c]) = [c]
      have hj : joinComps [c] = c ++ [] := by simp [joinComps]
      rw [hj, splitCompsAux_chunk c [] [] hcf]
      simp [splitCompsAux, hc]
    | c' :: rest', ih =>
      show splitCompsAux [] (joinComps (c :: c' :: rest')) = c :: c' :: rest'
      have hj : joinComps (c :: c' :: rest') = c ++ '\\' :: joinComps (c' :: rest') := rfl
      rw [hj, splitCompsAux_chunk c _ [] hcf]
      simp only [List.append_nil, splitCompsAux, isSlash]
      have hcr : ¬(c.reverse = []) := by simpa using hc
      simp only [Char.isValue, beq_self_eq_true, Bool.true_or, if_true, hcr, if_false,
        List.reverse_reverse]
      have := ih (fun x hx => hgood x (by simp [hx]))
      unfold splitComps at this
      rw [this]

/-- Canonical component lists: a block of `..` (empty when rooted) followed
by normal components.  `cleanComps` produces these and fixes them. -/
def CanonList (rooted : Bool) (l : List (List Char)) : Prop :=
  ∃ ds ns, l = ds ++ ns ∧ (∀ c ∈ ds, c = dotdot) ∧
    (∀ c ∈ ns, normComp c = true) ∧ (rooted = true → ds = [])

/-- Canonical form of the reversed output stack during the clean fold. -/
def CanonAcc (rooted : Bool) (acc : List (List Char)) : Prop :=
  ∃ ns ds, acc = ns ++ ds ∧ (∀ c ∈ ds, c = dotdot) ∧
    (∀ c ∈ ns, normComp c = true) ∧ (rooted = true → ds = [])

theorem normComp_iff (c : List Char) :
    normComp c = true ↔ c ≠ ['.'] ∧ c ≠ dotdot := by
  simp [normComp]

theorem normComp_dotdot : normComp dotdot = false := by decide

theorem cleanStep_dot (rooted : Bool) (acc : List (List Char)) :
    cleanStep rooted acc ['.'] = acc := by
  unfold cleanStep
  rw [if_pos rfl]

theorem cleanStep_dd_nil (rooted : Bool) :
    cleanStep rooted [] dotdot = if rooted then [] else [dotdot] := by
  unfold cleanStep
  rw [if_neg (by decide), if_pos rfl]

theorem cleanStep_dd_cons (rooted : Bool) (a : List Char)
    (rest : List (List Char)) :
    cleanStep rooted (a :: rest) dotdot =
      if a = dotdot then dotdot :: a :: rest else rest := by
  unfold cleanStep
  rw [if_neg (by decide), if_pos rfl]

theorem cleanStep_norm (rooted : Bool) (acc : List (List Char))
    {c : List Char} (hc : normComp c = true) :
    cleanStep rooted acc c = c :: acc := by
  obtain ⟨h1, h2⟩ := (normComp_iff c).mp hc
  unfold cleanStep
  rw [if_neg h1, if_neg h2]

theorem cleanStep_canonAcc {rooted : Bool} {acc : List (List Char)}
    (h : CanonAcc rooted acc) (c : List Char) :
    CanonAcc rooted (cleanStep rooted acc c) := by
  obtain ⟨ns, ds, hacc, hds, hns, hr⟩ := h
  by_cases h1 : c = ['.']
  · subst h1
    rw [cleanStep_dot]
    exact ⟨ns, ds, hacc, hds, hns, hr⟩
  by_cases h2 : c = dotdot
  · subst h2
    cases ns with
    | nil =>
      simp only [List.nil_append] at hacc
      subst hacc
      cases acc with
      | nil =>
        rw [cleanStep_dd_nil]
        cases rooted with
        | true => exact ⟨[], [], by simp, by simp, by simp, fun _ => rfl⟩
        | false =>
          exact ⟨[], [dotdot], by simp, by simp, by simp, by simp⟩
      | cons d ds' =>
        have hd : d = dotdot := hds d (by simp)
        subst hd
        rw [cleanStep_dd_cons, if_pos rfl]
        refine ⟨[], dotdot :: dotdot :: ds', by simp, ?_, by simp,
          fun h => absurd (hr h) (by simp)⟩
        intro x hx
        rcases List.mem_cons.mp hx with h | hx
        · exact h
        rcases List.mem_cons.mp hx with h | hx
        · exact h
        · exact hds x (by simp [hx])
    | cons n ns' =>
      have hn : normComp n = true := hns n (by simp)
      have hnd : ¬(n = dotdot) := by
        intro h; rw [h] at hn; exact absurd hn (by simp [normComp_dotdot])
      simp only [List.cons_append] at hacc
      subst hacc
      rw [cleanStep_dd_cons, if_neg hnd]
      exact ⟨ns', ds, rfl, hds, fun x hx => hns x (by simp [hx]), hr⟩
  · rw [cleanStep_norm rooted acc ((normComp_iff c).mpr ⟨h1, h2⟩)]
    refine ⟨c :: ns, ds, by simp [hacc], hds, ?_, hr⟩
    intro x hx
    rcases List.mem_cons.mp hx with h | hx
    · rw [h]; exact (normComp_iff c).mpr ⟨h1, h2⟩
    · exact hns x hx

theorem foldl_cleanStep_canonAcc (rooted : Bool) (xs : List (List Char)) :
    ∀ acc, CanonAcc rooted acc →
      CanonAcc rooted (xs.foldl (cleanStep rooted) acc) := by
  induction xs with
  | nil => intro acc h; exact h
  | cons x xs ih =>
    intro acc h
    exact ih _ (cleanStep_canonAcc h x)

theorem cleanComps_canon (rooted : Bool) (xs : List (List Char)) :
    CanonList rooted (cleanComps rooted xs) := by
  obtain ⟨ns, ds, hacc, hds, hns, hr⟩ :=
    foldl_cleanStep_canonAcc rooted xs [] ⟨[], [], rfl, by simp, by simp, fun _ => rfl⟩
  refine ⟨ds.reverse, ns.reverse, ?_, ?_, ?_, ?_⟩
  · simp [cleanComps, hacc]
  · intro c hc; exact hds c (List.mem_reverse.mp hc)
  · intro c hc; exact hns c (List.mem_reverse.mp hc)
  · intro h; simp [hr h]

theorem foldl_cleanStep_norm {rooted : Bool} (xs : List (List Char)) :
    ∀ acc, (∀ c ∈ xs, normComp c = true) →
      xs.foldl (cleanStep rooted) acc = xs.reverse ++ acc := by
  induction xs with
  | nil => intro acc _; simp
  | cons x xs ih =>
    intro acc h
    rw [List.foldl_cons, cleanStep_norm _ _ (h x (by simp)),
      ih (x :: acc) (fun c hc => h c (by simp [hc]))]
    simp

theorem foldl_cleanStep_dots (n : Nat) :
    ∀ m, (List.replicate n dotdot).foldl (cleanStep false) (List.replicate m dotdot) =
      List.replicate (n + m) dotdot := by
  induction n with
  | zero => intro m; simp
  | succ k ih =>
    intro m
    have hstep : cleanStep false (List.replicate m dotdot) dotdot =
        List.replicate (m + 1) dotdot := by
      match m with
      | 0 => rw [List.replicate_zero, cleanStep_dd_nil]; simp
      | m' + 1 =>
        rw [List.replicate_succ, cleanStep_dd_cons, if_pos rfl,
          ← List.replicate_succ, ← List.replicate_succ]
    rw [List.replicate_succ, List.foldl_cons, hstep, ih (m + 1)]
    congr 1
    omega

theorem cleanComps_fixed {rooted : Bool} {l : List (List Char)}
    (h : CanonList rooted l) : cleanComps rooted l = l := by
  obtain ⟨ds, ns, hl, hds, hns, hr⟩ := h
  subst hl
  unfold cleanComps
  rw [List.foldl_append]
  have hds0 : ds.foldl (cleanStep rooted) [] = ds := by
    cases rooted with
    | true => rw [hr rfl]; simp
    | false =>
      have hrep : ds = List.replicate ds.length dotdot :=
        List.eq_replicate_of_mem hds
      calc ds.foldl (cleanStep false) []
          = (List.replicate ds.length dotdot).foldl (cleanStep false)
              (List.replicate 0 dotdot) := by rw [← hrep]; simp
        _ = List.replicate (ds.length + 0) dotdot := foldl_cleanStep_dots ds.length 0
        _ = ds := by simpa using hrep.symm
  rw [hds0, foldl_cleanStep_norm ns ds hns, List.reverse_append,
    List.reverse_reverse]
  have hrep : ds = List.replicate ds.length dotdot :=
    List.eq_replicate_of_mem hds
  congr 1
  conv_lhs => rw [hrep]
  rw [List.reverse_replicate]
  exact hrep.symm

theorem cleanStep_good {rooted : Bool} {acc : List (List Char)}
    (hacc : ∀ c ∈ acc, goodComp c) {x : List Char} (hx : goodComp x) :
    ∀ c ∈ cleanStep rooted acc x, goodComp c := by
  intro c hc
  have hddgood : goodComp dotdot := ⟨by simp [dotdot], by decide⟩
  by_cases h1 : x = ['.']
  · subst h1
    rw [cleanStep_dot] at hc
    exact hacc c hc
  by_cases h2 : x = dotdot
  · subst h2
    cases acc with
    | nil =>
      rw [cleanStep_dd_nil] at hc
      cases rooted with
      | true => simp at hc
      | false =>
        simp only [if_neg (by simp : ¬(false = true)), List.mem_singleton] at hc
        rw [hc]; exact hddgood
    | cons a rest =>
      rw [cleanStep_dd_cons] at hc
      by_cases ha : a = dotdot
      · rw [if_pos ha] at hc
        rcases List.mem_cons.mp hc with h | hc
        · rw [h]; exact hddgood
        rcases List.mem_cons.mp hc with h | hc
        · rw [h, ha]; exact hddgood
        · exact hacc c (by simp [hc])
      · rw [if_neg ha] at hc
        exact hacc c (by simp [hc])
  · rw [cleanStep_norm _ _ ((normComp_iff x).mpr ⟨h1, h2⟩)] at hc
    rcases List.mem_cons.mp hc with h | hc
    · rw [h]; exact hx
    · exact hacc c hc

theorem cleanComps_good {rooted : Bool} (xs : List (List Char))
    (hxs : ∀ c ∈ xs, goodComp c) :
    ∀ c ∈ cleanComps rooted xs, goodComp c := by
  have main : ∀ (ys : List (List Char)) (acc : List (List Char)),
      (∀ c ∈ ys, goodComp c) → (∀ c ∈ acc, goodComp c) →
      ∀ c ∈ ys.foldl (cleanStep rooted) acc, goodComp c := by
    intro ys
    induction ys with
    | nil => intro acc _ hacc c hc; exact hacc c hc
    | cons y ys ih =>
      intro acc hys hacc c hc
      exact ih _ (fun d hd => hys d (by simp [hd]))
        (cleanStep_good hacc (hys y (by simp))) c hc
  intro c hc
  exact main xs [] hxs (by simp) c (List.mem_reverse.mp (by simpa [cleanComps] using hc))

/-! ### Idempotence of the clean function -/

theorem goCleanList_eq_nil {cs : List Char}
    (h : cs.drop (volumeLen cs) = []) : goCleanList cs = cs ++ ['.'] := by
  unfold goCleanList
  rw [h]

theorem goCleanList_eq_cons {cs : List Char} {r : Char} {t : List Char}
    (h : cs.drop (volumeLen cs) = r :: t) :
    goCleanList cs =
      cs.take (volumeLen cs) ++
        (if volumeLen cs = 0 && !(isSlash r) &&
            colonHead (cleanComps (isSlash r) (splitComps (r :: t))) then
          '.' :: '\\' :: renderBody (isSlash r)
            (cleanComps (isSlash r) (splitComps (r :: t)))
        else renderBody (isSlash r)
          (cleanComps (isSlash r) (splitComps (r :: t)))) := by
  unfold goCleanList
  rw [h]

theorem volumeLen_nil : volumeLen [] = 0 := rfl

theorem volumeLen_single (x : Char) : volumeLen [x] = 0 := rfl

theorem volumeLen_cons_cons (x y : Char) (r : List Char) :
    volumeLen (x :: y :: r) = if x.isAlpha && y == ':' then 2 else 0 := rfl

theorem volumeLen_cons_not_alpha {x : Char} (hx : x.isAlpha = false)
    (l : List Char) : volumeLen (x :: l) = 0 := by
  cases l with
  | nil => rfl
  | cons y r => rw [volumeLen_cons_cons, hx]; simp

theorem volumeLen_or (cs : List Char) :
    volumeLen cs = 0 ∨
      ∃ a u, cs = a :: ':' :: u ∧ a.isAlpha = true ∧ volumeLen cs = 2 := by
  match cs with
  | [] => exact Or.inl rfl
  | [x] => exact Or.inl rfl
  | x :: y :: r =>
    rw [volumeLen_cons_cons]
    by_cases h : (x.isAlpha && y == ':') = true
    · obtain ⟨h1, h2⟩ := Bool.and_eq_true_iff.mp h
      refine Or.inr ⟨x, r, ?_, h1, ?_⟩
      · rw [show y = ':' from by simpa using h2]
      · rw [if_pos h]
    · left
      rw [if_neg h]

theorem splitComps_slash_cons {x : Char} (hx : isSlash x = true)
    (l : List Char) : splitComps (x :: l) = splitComps l := by
  show splitCompsAux [] (x :: l) = splitCompsAux [] l
  rw [splitCompsAux, if_pos hx, if_pos rfl]

theorem splitComps_dot_slash (l : List Char) :
    splitComps ('.' :: '\\' :: l) = ['.'] :: splitComps l := by
  show splitCompsAux [] ('.' :: '\\' :: l) = ['.'] :: splitCompsAux [] l
  rw [splitCompsAux, if_neg (by decide), splitCompsAux, if_pos (by decide),
    if_neg (by decide)]
  rfl

theorem cleanComps_dot_cons (rooted : Bool) (l : List (List Char)) :
    cleanComps rooted (['.'] :: l) = cleanComps rooted l := by
  unfold cleanComps
  rw [List.foldl_cons, cleanStep_dot]

theorem joinComps_cons_head (x : Char) (c1 : List Char)
    (rest : List (List Char)) :
    ∃ tl, joinComps ((x :: c1) :: rest) = x :: tl := by
  cases rest with
  | nil => exact ⟨c1, rfl⟩
  | cons c' r' => exact ⟨c1 ++ '\\' :: joinComps (c' :: r'), rfl⟩

theorem volumeLen_joinComps {comps : List (List Char)}
    (hne : comps ≠ []) (hcolon : colonHead comps = false)
    (hgood : ∀ c ∈ comps, goodComp c) :
    volumeLen (joinComps comps) = 0 := by
  match comps, hne with
  | c :: rest, _ =>
    obtain ⟨hc, _⟩ := hgood c (by simp)
    match c, hc with
    | x :: c1, _ =>
      have hnocolon : (':' : Char) ∉ x :: c1 := by
        intro hmem
        have hch : colonHead ((x :: c1) :: rest) = true := by
          unfold colonHead
          exact List.elem_eq_true_of_mem hmem
        rw [hch] at hcolon
        exact absurd hcolon (by simp)
      -- the second character of the join comes from the head component
      -- or is the separator, neither of which can be a colon
      have key : ∀ y : Char, ∀ tl' : List Char,
          joinComps ((x :: c1) :: rest) = x :: y :: tl' → ¬(y = ':') := by
        intro y tl' hj hy
        subst hy
        cases rest with
        | nil =>
          have h1 : x :: c1 = x :: ':' :: tl' := hj
          have h2 : c1 = ':' :: tl' := by
            injection h1 with _ h2
          exact hnocolon (by simp [h2])
        | cons c' r' =>
          have h1 : x :: (c1 ++ '\\' :: joinComps (c' :: r')) = x :: ':' :: tl' := hj
          have h2 : c1 ++ '\\' :: joinComps (c' :: r') = ':' :: tl' := by
            injection h1 with _ h2
          cases c1 with
          | nil =>
            have h3 : ('\\' : Char) = ':' := by
              injection h2 with h3 _
            exact absurd h3 (by decide)
          | cons z c2 =>
            have hz : z = ':' := by
              injection h2 with h3 _
            subst hz
            exact hnocolon (by simp)
      obtain ⟨tl, htl⟩ := joinComps_cons_head x c1 rest
      rw [htl]
      cases tl with
      | nil => exact volumeLen_single x
      | cons y tl' =>
        rw [volumeLen_cons_cons]
        have hy : ¬((x.isAlpha && y == ':') = true) := by
          intro hcontra
          exact key y tl' htl
            (by simpa using (Bool.and_eq_true_iff.mp hcontra).2)
        rw [if_neg hy]

theorem renderBody_true (comps : List (List Char)) :
    renderBody true comps = '\\' :: joinComps comps := by
  unfold renderBody
  rw [if_pos rfl]

theorem renderBody_false_nil : renderBody false [] = ['.'] := rfl

theorem renderBody_false_cons (c : List Char) (rest : List (List Char)) :
    renderBody false (c :: rest) = joinComps (c :: rest) := by
  unfold renderBody
  rw [if_neg (by simp), if_neg (by simp)]

/-- Cleaning fixes a rendered canonical body that carries no volume. -/
theorem goCleanList_fix_novol (rooted : Bool) (comps : List (List Char))
    (hgood : ∀ c ∈ comps, goodComp c) (hcanon : CanonList rooted comps) :
    goCleanList (if !rooted && colonHead comps then
        '.' :: '\\' :: renderBody rooted comps
      else renderBody rooted comps) =
    (if !rooted && colonHead comps then
        '.' :: '\\' :: renderBody rooted comps
      else renderBody rooted comps) := by
  cases rooted with
  | true =>
    rw [if_neg (by simp), renderBody_true]
    have hvol : volumeLen ('\\' :: joinComps comps) = 0 :=
      volumeLen_cons_not_alpha (by decide) _
    have hdrop : ('\\' :: joinComps comps).drop
        (volumeLen ('\\' :: joinComps comps)) = '\\' :: joinComps comps := by
      rw [hvol]
      rfl
    rw [goCleanList_eq_cons hdrop, hvol]
    have hsp : splitComps ('\\' :: joinComps comps) = comps := by
      rw [splitComps_slash_cons (by decide), splitComps_joinComps comps hgood]
    rw [show isSlash '\\' = true from by decide, hsp, cleanComps_fixed hcanon]
    rw [if_neg (by simp), renderBody_true]
    simp
  | false =>
    by_cases hch : colonHead comps = true
    · -- the protective dot-prefix case
      match comps, hch with
      | c :: rest, hch =>
        rw [if_pos (by simp [hch]), renderBody_false_cons]
        have hvol : volumeLen ('.' :: '\\' :: joinComps (c :: rest)) = 0 :=
          volumeLen_cons_not_alpha (by decide) _
        have hdrop : ('.' :: '\\' :: joinComps (c :: rest)).drop
            (volumeLen ('.' :: '\\' :: joinComps (c :: rest))) =
            '.' :: '\\' :: joinComps (c :: rest) := by
          rw [hvol]
          rfl
        rw [goCleanList_eq_cons hdrop, hvol]
        have hsp : splitComps ('.' :: '\\' :: joinComps (c :: rest)) =
            ['.'] :: (c :: rest) := by
          rw [splitComps_dot_slash, splitComps_joinComps _ hgood]
        rw [show isSlash '.' = false from by decide, hsp, cleanComps_dot_cons,
          cleanComps_fixed hcanon]
        rw [if_pos (by simp [hch]), renderBody_false_cons]
        simp
    · have hchf : colonHead comps = false := by simpa using hch
      rw [if_neg (by simp [hchf])]
      cases comps with
      | nil =>
        rw [renderBody_false_nil]
        decide
      | cons c rest =>
        rw [renderBody_false_cons]
        obtain ⟨hcne, hcf⟩ := hgood c (by simp)
        match c, hcne, hcf with
        | x :: c1, _, hcf =>
          have hvol : volumeLen (joinComps ((x :: c1) :: rest)) = 0 :=
            volumeLen_joinComps (by simp) hchf hgood
          obtain ⟨tl, htl⟩ := joinComps_cons_head x c1 rest
          have hdrop : (joinComps ((x :: c1) :: rest)).drop
              (volumeLen (joinComps ((x :: c1) :: rest))) = x :: tl := by
            rw [hvol, htl]
            rfl
          rw [goCleanList_eq_cons hdrop]
          have hxs : isSlash x = false := hcf x (by simp)
          have hsp : splitComps (x :: tl) = (x :: c1) :: rest := by
            rw [← htl, splitComps_joinComps _ hgood]
          rw [hxs, hsp, cleanComps_fixed hcanon, hvol]
          rw [if_neg (by simp [hchf]), renderBody_false_cons]
          simp [htl]

/-- Cleaning fixes a drive volume followed by a rendered canonical body. -/
theorem goCleanList_fix_vol (a : Char) (ha : a.isAlpha = true)
    (rooted : Bool) (comps : List (List Char))
    (hgood : ∀ c ∈ comps, goodComp c) (hcanon : CanonList rooted comps) :
    goCleanList (a :: ':' :: renderBody rooted comps) =
      a :: ':' :: renderBody rooted comps := by
  cases rooted with
  | true =>
    rw [renderBody_true]
    have hvol : volumeLen (a :: ':' :: '\\' :: joinComps comps) = 2 := by
      rw [volumeLen_cons_cons, ha]
      simp
    have hdrop : (a :: ':' :: '\\' :: joinComps comps).drop
        (volumeLen (a :: ':' :: '\\' :: joinComps comps)) =
        '\\' :: joinComps comps := by
      rw [hvol]
      rfl
    rw [goCleanList_eq_cons hdrop, hvol]
    have hsp : splitComps ('\\' :: joinComps comps) = comps := by
      rw [splitComps_slash_cons (by decide), splitComps_joinComps comps hgood]
    rw [show isSlash '\\' = true from by decide, hsp, cleanComps_fixed hcanon]
    rw [if_neg (by simp), renderBody_true]
    rfl
  | false =>
    cases comps with
    | nil =>
      rw [renderBody_false_nil]
      have hvol : volumeLen (a :: ':' :: ['.']) = 2 := by
        rw [volumeLen_cons_cons, ha]
        simp
      have hdrop : (a :: ':' :: ['.']).drop
          (volumeLen (a :: ':' :: ['.'])) = ['.'] := by
        rw [hvol]
        rfl
      rw [goCleanList_eq_cons hdrop, hvol]
      rw [show splitComps ['.'] = [['.']] from rfl,
        show cleanComps (isSlash '.') [['.']] = ([] : List (List Char)) from by decide]
      rw [if_neg (by simp), show renderBody (isSlash '.') [] = ['.'] from by decide]
      rfl
    | cons c rest =>
      rw [renderBody_false_cons]
      obtain ⟨hcne, hcf⟩ := hgood c (by simp)
      match c, hcne, hcf with
      | x :: c1, _, hcf =>
        obtain ⟨tl, htl⟩ := joinComps_cons_head x c1 rest
        rw [htl]
        have hvol : volumeLen (a :: ':' :: x :: tl) = 2 := by
          rw [volumeLen_cons_cons, ha]
          simp
        have hdrop : (a :: ':' :: x :: tl).drop
            (volumeLen (a :: ':' :: x :: tl)) = x :: tl := by
          rw [hvol]
          rfl
        rw [goCleanList_eq_cons hdrop, hvol]
        have hxs : isSlash x = false := hcf x (by simp)
        have hsp : splitComps (x :: tl) = (x :: c1) :: rest := by
          rw [← htl, splitComps_joinComps _ hgood]
        rw [hxs, hsp, cleanComps_fixed hcanon]
        rw [if_neg (by simp), renderBody_false_cons, htl]
        rfl

/-- The clean function of the path model is idempotent. -/
theorem goCleanList_idem (cs : List Char) :
    goCleanList (goCleanList cs) = goCleanList cs := by
  have hcanon := cleanComps_canon
  rcases hdrop : cs.drop (volumeLen cs) with _ | ⟨r, t⟩
  · -- the input is pure volume (or empty)
    rw [goCleanList_eq_nil hdrop]
    rcases volumeLen_or cs with hv | ⟨a, u, hcs, ha, hv⟩
    · rw [hv] at hdrop
      simp only [List.drop_zero] at hdrop
      subst hdrop
      decide
    · rw [hv] at hdrop
      subst hcs
      have hu : u = [] := by simpa using hdrop
      subst hu
      exact goCleanList_fix_vol a ha false [] (by simp)
        ⟨[], [], rfl, by simp, by simp, fun _ => rfl⟩
  · rw [goCleanList_eq_cons hdrop]
    have hgood : ∀ c ∈ cleanComps (isSlash r) (splitComps (r :: t)), goodComp c :=
      cleanComps_good _ (splitComps_good _)
    have hcan : CanonList (isSlash r) (cleanComps (isSlash r) (splitComps (r :: t))) :=
      cleanComps_canon _ _
    rcases volumeLen_or cs with hv | ⟨a, u, hcs, ha, hv⟩
    · simp only [hv, List.take_zero, List.nil_append,
        show (decide ((0 : Nat) = 0)) = true from rfl, Bool.true_and]
      exact goCleanList_fix_novol (isSlash r) _ hgood hcan
    · have h20 : ¬((2 : Nat) = 0) := by simp
      rw [hv, if_neg (by simp)]
      subst hcs
      have htake : (a :: ':' :: u).take 2 = [a, ':'] := rfl
      rw [htake]
      exact goCleanList_fix_vol a ha (isSlash r) _ hgood hcan

/-- String-level idempotence of the modelled Go Clean. -/
theorem goClean_idem (s : String) : goClean (goClean s) = goClean s := by
  unfold goClean
  congr 1
  exact goCleanList_idem s.data

theorem goIsAbs_eq (s : String) :
    goIsAbs s = if volumeLen s.data = 0 then false
      else
        match s.data.drop (volumeLen s.data) with
        | [] => false
        | c :: _ => isSlash c := rfl

theorem goIsAbs_of_form {s : String} (a r : Char) (t : List Char)
    (hdata : s.data = a :: ':' :: r :: t) (ha : a.isAlpha = true)
    (hr : isSlash r = true) : goIsAbs s = true := by
  have hv : volumeLen s.data = 2 := by
    rw [hdata, volumeLen_cons_cons, ha]
    simp
  rw [goIsAbs_eq, if_neg (by simp [hv]), hv, hdata]
  exact hr

theorem goIsAbs_inv {s : String} (h : goIsAbs s = true) :
    ∃ a r t, s.data = a :: ':' :: r :: t ∧ a.isAlpha = true ∧
      isSlash r = true := by
  rw [goIsAbs_eq] at h
  by_cases hv0 : volumeLen s.data = 0
  · rw [if_pos hv0] at h
    exact absurd h (by simp)
  · rw [if_neg hv0] at h
    rcases volumeLen_or s.data with hv | ⟨a, u, hcs, ha, hv⟩
    · exact absurd hv hv0
    · rw [hv, hcs] at h
      cases u with
      | nil => exact absurd h (by simp)
      | cons r t =>
        refine ⟨a, r, t, hcs, ha, ?_⟩
        exact h

/-- Cleaning preserves absoluteness. -/
theorem goClean_abs {s : String} (h : goIsAbs s = true) :
    goIsAbs (goClean s) = true := by
  obtain ⟨a, r, t, hdata, ha, hr⟩ := goIsAbs_inv h
  have hv : volumeLen s.data = 2 := by
    rw [hdata, volumeLen_cons_cons, ha]
    simp
  have hdrop : s.data.drop (volumeLen s.data) = r :: t := by
    rw [hv, hdata]
    rfl
  unfold goClean
  rw [goCleanList_eq_cons hdrop, hr]
  rw [if_neg (by simp [hv]), renderBody_true, hv, hdata]
  exact goIsAbs_of_form a '\\' _ rfl ha (by decide)

/-- The absolutisation of the path model yields absolute paths whenever
the working directory is itself absolute. -/
theorem goAbs_abs {cwd : String} (p : String) (hcwd : goIsAbs cwd = true) :
    goIsAbs (goAbs cwd p) = true := by
  unfold goAbs
  by_cases hp : goIsAbs p = true
  · rw [if_pos hp]
    exact goClean_abs hp
  · rw [if_neg hp]
    apply goClean_abs
    obtain ⟨a, r, t, hdata, ha, hr⟩ := goIsAbs_inv hcwd
    exact goIsAbs_of_form a r (t ++ '\\' :: p.data)
      (by simp [hdata]) ha hr

/-- The absolutisation of the path model is idempotent (for an absolute
working directory). -/
theorem goAbs_of_abs {q : String} (cwd : String) (h : goIsAbs q = true) :
    goAbs cwd q = goClean q := by
  unfold goAbs
  rw [if_pos h]

theorem goAbs_idem (cwd p : String) (hcwd : goIsAbs cwd = true) :
    goAbs cwd (goAbs cwd p) = goAbs cwd p := by
  rw [goAbs_of_abs cwd (goAbs_abs p hcwd)]
  unfold goAbs
  by_cases hp : goIsAbs p = true
  · rw [if_pos hp]
    exact goClean_idem p
  · rw [if_neg hp]
    exact goClean_idem _

/-! ## Data model: the HCS v2 configuration document

Translated from the Go structs.  Go maps (`map[string]*T`) are embedded as
association lists of `String × Option T`: a `nil` pointer value becomes
`none`, and the list fixes one iteration order (a single transaction
observes one stable order).  `json.RawMessage` pass-through fields are
opaque strings. -/

structure GpuDevice where
  name : String
  instanceID : String
deriving DecidableEq

structure SchemaVersion where
  major : Int
  minor : Int
deriving DecidableEq

structure ScsiAttachment where
  type : String
  path : String
deriving DecidableEq

structure ScsiController where
  attachments : List (String × Option ScsiAttachment)
deriving DecidableEq

structure VirtualPciDev where
  deviceInstancePath : String
  virtualFunction : Int
deriving DecidableEq

structure DevicesSpec where
  scsi : List (String × Option ScsiController)
  virtualPci : List (String × Option VirtualPciDev)
  enhancedModeVideo : String
  guestInterface : String
  keyboard : String
  mouse : String
  videoMonitor : String
deriving DecidableEq

structure VirtualMachineSpec where
  stopOnReset : Bool
  chipset : String
  computeTopology : String
  devices : Option DevicesSpec
deriving DecidableEq

structure ComputeSystemSpec where
  owner : String
  schemaVersion : Option SchemaVersion
  shouldTerminateOnLastHandleClosed : Bool
  virtualMachine : Option VirtualMachineSpec
deriving DecidableEq

/-- The zero value of `VirtualMachineSpec` (Go `&VirtualMachineSpec{}`). -/
def VirtualMachineSpec.empty : VirtualMachineSpec :=
  { stopOnReset := false, chipset := "", computeTopology := "", devices := none }

/-- The zero value of `DevicesSpec` (Go `&DevicesSpec{}`). -/
def DevicesSpec.empty : DevicesSpec :=
  { scsi := [], virtualPci := [], enhancedModeVideo := "", guestInterface := "",
    keyboard := "", mouse := "", videoMonitor := "" }

/-! ## Spec transformers -/

/-- Paths contributed by one controller's attachment map
(inner loop of `extractVHDPaths`). -/
def attPaths : List (String × Option ScsiAttachment) → List String
  | [] => []
  | (_, none) :: rest => attPaths rest
  | (_, some a) :: rest =>
    if a.path ≠ "" then a.path :: attPaths rest else attPaths rest

/-- Paths contributed by the controller map
(outer loop of `extractVHDPaths`). -/
def ctrlPaths : List (String × Option ScsiController) → List String
  | [] => []
  | (_, none) :: rest => ctrlPaths rest
  | (_, some c) :: rest => attPaths c.attachments ++ ctrlPaths rest

/-- Translated from `extractVHDPaths`: walk the spec to find all VHD(X)
paths from SCSI attachments; `nil` sections yield the empty list. -/
def extractVHDPaths (spec : ComputeSystemSpec) : List String :=
  match spec.virtualMachine with
  | none => []
  | some vm =>
    match vm.devices with
    | none => []
    | some d => ctrlPaths d.scsi

/-- The attachment rewriting of `makePathsAbsolute`, parameterised by the
path-resolution function (`filepath.Abs` in the source). -/
def absAtts (absFn : String → Except String String) :
    List (String × Option ScsiAttachment) →
      Except String (List (String × Option ScsiAttachment))
  | [] => .ok []
  | (k, none) :: rest => (absAtts absFn rest).map (fun r => (k, none) :: r)
  | (k, some a) :: rest =>
    if a.path ≠ "" then
      match absFn a.path with
      | .error e => .error e
      | .ok q => (absAtts absFn rest).map (fun r => (k, some { a with path := q }) :: r)
    else (absAtts absFn rest).map (fun r => (k, some a) :: r)

/-- The controller loop of `makePathsAbsolute`. -/
def absCtrls (absFn : String → Except String String) :
    List (String × Option ScsiController) →
      Except String (List (String × Option ScsiController))
  | [] => .ok []
  | (k, none) :: rest => (absCtrls absFn rest).map (fun r => (k, none) :: r)
  | (k, some c) :: rest =>
    match absAtts absFn c.attachments with
    | .error e => .error e
    | .ok atts =>
      (absCtrls absFn rest).map (fun r => (k, some { c with attachments := atts }) :: r)

/-- Translated from `makePathsAbsolute`: convert all VHD paths in the spec
to absolute paths; a `nil` virtual-machine or device section is a no-op. -/
def makePathsAbsolute (absFn : String → Except String String)
    (spec : ComputeSystemSpec) : Except String ComputeSystemSpec :=
  match spec.virtualMachine with
  | none => .ok spec
  | some vm =>
    match vm.devices with
    | none => .ok spec
    | some d =>
      match absCtrls absFn d.scsi with
      | .error e => .error e
      | .ok scsi2 =>
        let d2 := { d with scsi := scsi2 }
        let vm2 := { vm with devices := some d2 }
        .ok { spec with virtualMachine := some vm2 }

/-- The resolution function of the source: Go `filepath.Abs` against the
process working directory, which never fails in the modelled domain. -/
def goAbsFn (cwd : String) : String → Except String String :=
  fun p => .ok (goAbs cwd p)

/-- The GPU-to-virtual-PCI map construction of `injectGPU`
(`for i, gpu := range gpus`). -/
def gpuPciDevsFrom (i : Nat) : List GpuDevice → List (String × Option VirtualPciDev)
  | [] => []
  | g :: rest =>
    ("gpu-" ++ toString i,
      some { deviceInstancePath := g.instanceID, virtualFunction := 0xFFFF }) ::
      gpuPciDevsFrom (i + 1) rest

/-- Translated from `injectGPU`: adds or replaces the VirtualPci section in
the spec with GPU-PV devices from the provided GPU list, materialising
`nil` sections. -/
def injectGPU (spec : ComputeSystemSpec) (gpus : List GpuDevice) :
    ComputeSystemSpec :=
  let vm := match spec.virtualMachine with
    | some v => v
    | none => VirtualMachineSpec.empty
  let d := match vm.devices with
    | some d => d
    | none => DevicesSpec.empty
  let d2 := { d with virtualPci := gpuPciDevsFrom 0 gpus }
  let vm2 := { vm with devices := some d2 }
  { spec with virtualMachine := some vm2 }

/-- A brace character, the cut set of `strings.Trim(s, "\x7b\x7d")`. -/
def isBrace (c : Char) : Bool := c == '{' || c == '}'

/-- Modelled from Go `strings.Trim(s, "\x7b\x7d")`: remove leading and
trailing brace characters. -/
def trimBraces (s : String) : String :=
  String.mk (((s.data.dropWhile isBrace).reverse.dropWhile isBrace).reverse)

/-! ## The creation transaction

`CreateAndStartVM` is embedded as a pure function from an environment of
externally determined call outcomes to a result and a trace of the calls
made against the HCS service.  Operation handles are numbered in order of
`HcsCreateOperation` calls within one transaction. -/

/-- One externally visible call of the transaction. -/
inductive Event where
  | grantCall (vmID path : String) (ok : Bool)
  | revokeCall (vmID path : String)
  | opCreate (h : Nat) (ok : Bool)
  | opClose (h : Nat)
  | createSysCall (vmID : String) (doc : ComputeSystemSpec) (ok : Bool)
  | waitCall (h : Nat) (timeoutMs : Nat) (res : String) (ok : Bool)
  | startCall (ok : Bool)
  | terminateCall (ok : Bool)
  | sysClose
deriving DecidableEq

/-- Outcomes of the external calls, indexed by call order where a call site
occurs more than once.  `absFn` stands for `filepath.Abs`; `gpuEnumOk` and
`gpuList` are the device-discovery collaborator; `guid` is the value minted
by `windows.GenerateGUID`. -/
structure Env where
  absFn : String → Except String String
  gpuEnumOk : Bool
  gpuList : List GpuDevice
  guid : String
  grantOk : Nat → Bool
  opOk : Nat → Bool
  createOk : Bool
  startOk : Bool
  termOk : Bool
  waitOk : Nat → Bool
  waitRes : Nat → String

/-- Call counters and the trace accumulated so far. -/
structure St where
  nGrant : Nat
  nOp : Nat
  nWait : Nat
  tr : List Event
deriving DecidableEq

def St.init : St := { nGrant := 0, nOp := 0, nWait := 0, tr := [] }

/-- `INFINITE` of `HcsWaitForOperationResult`. -/
def infinite : Nat := 0xFFFFFFFF

def doGrant (env : Env) (s : St) (vmID p : String) : St × Bool :=
  let ok := env.grantOk s.nGrant
  let s2 := { s with nGrant := s.nGrant + 1, tr := s.tr ++ [Event.grantCall vmID p ok] }
  (s2, ok)

def doRevoke (s : St) (vmID p : String) : St :=
  { s with tr := s.tr ++ [.revokeCall vmID p] }

/-- `createOperation`: returns the handle (numbered) and whether the call
succeeded. -/
def doCreateOperation (env : Env) (s : St) : St × Nat × Bool :=
  let ok := env.opOk s.nOp
  ({ s with nOp := s.nOp + 1, tr := s.tr ++ [.opCreate s.nOp ok] }, s.nOp, ok)

def doCloseOperation (s : St) (h : Nat) : St :=
  { s with tr := s.tr ++ [.opClose h] }

/-- `waitForResult`: yields the result document and success flag. -/
def doWait (env : Env) (s : St) (h : Nat) (timeoutMs : Nat) :
    St × String × Bool :=
  let ok := env.waitOk s.nWait
  let res := env.waitRes s.nWait
  let s2 := { s with nWait := s.nWait + 1, tr := s.tr ++ [Event.waitCall h timeoutMs res ok] }
  (s2, res, ok)

def doCreateSys (env : Env) (s : St) (vmID : String)
    (doc : ComputeSystemSpec) : St × Bool :=
  ({ s with tr := s.tr ++ [.createSysCall vmID doc env.createOk] }, env.createOk)

def doStart (env : Env) (s : St) : St × Bool :=
  ({ s with tr := s.tr ++ [.startCall env.startOk] }, env.startOk)

def doTerminate (env : Env) (s : St) : St × Bool :=
  ({ s with tr := s.tr ++ [.terminateCall env.termOk] }, env.termOk)

def doSysClose (s : St) : St :=
  { s with tr := s.tr ++ [.sysClose] }

/-- Translated from `revokeAll`: best-effort revocation of every granted
path, errors ignored. -/
def revokeAll (s : St) (vmID : String) (paths : List String) : St :=
  match paths with
  | [] => s
  | p :: rest => revokeAll (doRevoke s vmID p) vmID rest

/-- Translated from `terminateAndClose`: best-effort terminate with a
bounded 5s wait, swallowing all errors, then release the system handle. -/
def terminateAndClose (env : Env) (s : St) : St :=
  let (s1, h, ok) := doCreateOperation env s
  if ok then
    let (s2, _) := doTerminate env s1
    let (s3, _, _) := doWait env s2 h 5000
    let s4 := doCloseOperation s3 h
    doSysClose s4
  else doSysClose s1

/-- The grant loop of `CreateAndStartVM` (lines granting access path by
path): on the first failure it revokes every previously granted path of
this attempt and reports failure. -/
def grantLoop (env : Env) (vmID : String) (s : St) (granted : List String) :
    List String → St × List String × Bool
  | [] => (s, granted, true)
  | p :: rest =>
    let (s1, ok) := doGrant env s vmID p
    if ok then grantLoop env vmID s1 (granted ++ [p]) rest
    else (revokeAll s1 vmID granted, granted, false)

/-- Result of the embedded transaction, mirroring the early returns of
`CreateAndStartVM`. -/
inductive TxResult where
  | ok (vmID : String)
  | pathError (e : String)
  | gpuEnumError
  | noGpuFound
  | grantError
  | opError
  | createSubmitError
  | createWaitError (res : String)
  | startSubmitError
  | startWaitError
deriving DecidableEq

/-- The start phase of `CreateAndStartVM` (start submission, wait, cleanup
on failure, release on success). -/
def startPhase (env : Env) (vmID : String) (granted : List String) (s : St) :
    St × TxResult :=
  let (s1, h2, ok2) := doCreateOperation env s
  if ok2 then
    let (s2, stOk) := doStart env s1
    if stOk then
      let (s3, _, w2) := doWait env s2 h2 infinite
      let s4 := doCloseOperation s3 h2
      if w2 then (doSysClose s4, .ok vmID)
      else
        let s5 := terminateAndClose env s4
        (revokeAll s5 vmID granted, .startWaitError)
    else
      let s3 := doCloseOperation s2 h2
      let s4 := terminateAndClose env s3
      (revokeAll s4 vmID granted, .startSubmitError)
  else
    let s2 := terminateAndClose env s1
    (revokeAll s2 vmID granted, .opError)

/-- The create phase of `CreateAndStartVM` (operation open, create
submission, wait, close, compensation on failure), then the start phase. -/
def createPhase (env : Env) (vmID : String) (doc : ComputeSystemSpec)
    (granted : List String) (s : St) : St × TxResult :=
  let (s1, h, ok) := doCreateOperation env s
  if ok then
    let (s2, createOk) := doCreateSys env s1 vmID doc
    let (s3, res, w1) := doWait env s2 h infinite
    let s4 := doCloseOperation s3 h
    if createOk then
      if w1 then startPhase env vmID granted s4
      else (revokeAll s4 vmID granted, .createWaitError res)
    else (revokeAll s4 vmID granted, .createSubmitError)
  else (revokeAll s1 vmID granted, .opError)

/-- Translated from `CreateAndStartVM`, starting from the parsed document:
default the owner, resolve paths, optionally inject GPUs, mint the VM
identity, grant access to every VHD path, then create and start the
compute system with compensation at every failure point.  (The stderr
diagnostics, JSON re-serialisation and GUID-generation failure of the
source have no externally visible service effect and are not traced.) -/
def afterParse (env : Env) (spec2 : ComputeSystemSpec) (addGPU : Bool) :
    St × TxResult :=
  if addGPU ∧ ¬(env.gpuEnumOk = true) then (St.init, .gpuEnumError)
  else if addGPU ∧ env.gpuList = [] then (St.init, .noGpuFound)
  else
    let spec3 := if addGPU then injectGPU spec2 env.gpuList else spec2
    let vmID := trimBraces env.guid
    let vhdPaths := extractVHDPaths spec3
    let (s1, granted, allOk) := grantLoop env vmID St.init [] vhdPaths
    if allOk then createPhase env vmID spec3 granted s1
    else (s1, .grantError)

def createAndStartVM (env : Env) (spec0 : ComputeSystemSpec) (name : String)
    (addGPU : Bool) : St × TxResult :=
  let spec1 := if spec0.owner = "" then { spec0 with owner := "hcstool" } else spec0
  match makePathsAbsolute env.absFn spec1 with
  | .error e => (St.init, .pathError e)
  | .ok spec2 => afterParse env spec2 addGPU

/-! ## Trace-shape lemmas for the transaction -/

/-- Successful grant events for a path list. -/
def grantEvs (vmID : String) (ps : List String) : List Event :=
  ps.map (fun p => Event.grantCall vmID p true)

/-- Revocation events for a path list. -/
def revokeEvs (vmID : String) (ps : List String) : List Event :=
  ps.map (fun p => Event.revokeCall vmID p)

/-- The event segment of one `terminateAndClose` call. -/
def tacEvs (env : Env) (nOp nWait : Nat) : List Event :=
  if env.opOk nOp then
    [Event.opCreate nOp true, Event.terminateCall env.termOk,
     Event.waitCall nOp 5000 (env.waitRes nWait) (env.waitOk nWait),
     Event.opClose nOp, Event.sysClose]
  else [Event.opCreate nOp false, Event.sysClose]

theorem revokeAll_eq (vmID : String) (ps : List String) :
    ∀ s : St, revokeAll s vmID ps = { s with tr := s.tr ++ revokeEvs vmID ps } := by
  induction ps with
  | nil => intro s; simp [revokeAll, revokeEvs]
  | cons p rest ih =>
    intro s
    rw [revokeAll, ih]
    simp [doRevoke, revokeEvs]

theorem terminateAndClose_eq (env : Env) (s : St) :
    terminateAndClose env s =
      ⟨s.nGrant, s.nOp + 1, s.nWait + (if env.opOk s.nOp then 1 else 0),
        s.tr ++ tacEvs env s.nOp s.nWait⟩ := by
  by_cases h : env.opOk s.nOp = true
  · simp [terminateAndClose, doCreateOperation, doTerminate, doWait,
      doCloseOperation, doSysClose, tacEvs, h]
  · have h' : env.opOk s.nOp = false := by simpa using h
    simp [terminateAndClose, doCreateOperation, doSysClose, tacEvs, h']

theorem grantLoop_ok (env : Env) (vmID : String) (ps : List String) :
    ∀ (s : St) (granted : List String),
      (∀ i, i < ps.length → env.grantOk (s.nGrant + i) = true) →
      grantLoop env vmID s granted ps =
        (⟨s.nGrant + ps.length, s.nOp, s.nWait, s.tr ++ grantEvs vmID ps⟩,
          granted ++ ps, true) := by
  induction ps with
  | nil => intro s granted _; simp [grantLoop, grantEvs]
  | cons p rest ih =>
    intro s granted hok
    have h0 : env.grantOk s.nGrant = true := by
      simpa using hok 0 (by simp)
    rw [grantLoop]
    simp only [doGrant, h0, if_pos rfl]
    rw [ih _ (granted ++ [p]) (fun i hi => by
      have := hok (i + 1) (by simpa using hi)
      simpa [Nat.add_assoc, Nat.add_comm 1 i] using this)]
    simp [grantEvs, Nat.add_assoc, Nat.add_comm 1 rest.length]

theorem grantLoop_fail (env : Env) (vmID : String) (ps : List String) :
    ∀ (s : St) (granted : List String) (K : Nat) (hK : K < ps.length),
      (∀ i, i < K → env.grantOk (s.nGrant + i) = true) →
      env.grantOk (s.nGrant + K) = false →
      grantLoop env vmID s granted ps =
        (⟨s.nGrant + K + 1, s.nOp, s.nWait,
           s.tr ++ grantEvs vmID (ps.take K) ++
             [Event.grantCall vmID (ps.get ⟨K, hK⟩) false] ++
             revokeEvs vmID (granted ++ ps.take K)⟩,
         granted ++ ps.take K, false) := by
  induction ps with
  | nil => intro s granted K hK _ _; exact absurd hK (by simp)
  | cons p rest ih =>
    intro s granted K hK hbefore hfail
    match K with
    | 0 =>
      have h0 : env.grantOk s.nGrant = false := by simpa using hfail
      rw [grantLoop]
      simp only [doGrant, h0]
      rw [if_neg (by simp)]
      rw [revokeAll_eq]
      simp [grantEvs, revokeEvs]
    | K' + 1 =>
      have h0 : env.grantOk s.nGrant = true := by
        simpa using hbefore 0 (by simp)
      rw [grantLoop]
      simp only [doGrant, h0, if_pos rfl]
      have hK' : K' < rest.length := by simpa using hK
      rw [ih _ (granted ++ [p]) K' hK' (fun i hi => by
          have := hbefore (i + 1) (by simpa using hi)
          simpa [Nat.add_assoc, Nat.add_comm 1 i] using this)
        (by
          have := hfail
          simpa [Nat.add_assoc, Nat.add_comm 1 K'] using this)]
      simp only [List.take_succ_cons, List.get_cons_succ]
      simp [grantEvs, revokeEvs, Nat.add_assoc, Nat.add_comm 1 K']

theorem startPhase_opFail (env : Env) (vmID : String) (granted : List String)
    (s : St) (h : env.opOk s.nOp = false) :
    startPhase env vmID granted s =
      (⟨s.nGrant, s.nOp + 2, s.nWait + (if env.opOk (s.nOp + 1) then 1 else 0),
        s.tr ++ [Event.opCreate s.nOp false] ++ tacEvs env (s.nOp + 1) s.nWait ++
          revokeEvs vmID granted⟩, .opError) := by
  rw [startPhase]
  simp only [doCreateOperation, h, Bool.false_eq_true, if_false]
  rw [terminateAndClose_eq, revokeAll_eq]

theorem startPhase_startFail (env : Env) (vmID : String) (granted : List String)
    (s : St) (h : env.opOk s.nOp = true) (hst : env.startOk = false) :
    startPhase env vmID granted s =
      (⟨s.nGrant, s.nOp + 2, s.nWait + (if env.opOk (s.nOp + 1) then 1 else 0),
        s.tr ++ [Event.opCreate s.nOp true, Event.startCall false,
          Event.opClose s.nOp] ++ tacEvs env (s.nOp + 1) s.nWait ++
          revokeEvs vmID granted⟩, .startSubmitError) := by
  rw [startPhase]
  simp only [doCreateOperation, h, eq_self_iff_true, if_true, doStart, hst,
    Bool.false_eq_true, if_false, doCloseOperation]
  rw [terminateAndClose_eq, revokeAll_eq]
  simp

theorem startPhase_waitFail (env : Env) (vmID : String) (granted : List String)
    (s : St) (h : env.opOk s.nOp = true) (hst : env.startOk = true)
    (hw : env.waitOk s.nWait = false) :
    startPhase env vmID granted s =
      (⟨s.nGrant, s.nOp + 2,
        s.nWait + 1 + (if env.opOk (s.nOp + 1) then 1 else 0),
        s.tr ++ [Event.opCreate s.nOp true, Event.startCall true,
          Event.waitCall s.nOp infinite (env.waitRes s.nWait) false,
          Event.opClose s.nOp] ++ tacEvs env (s.nOp + 1) (s.nWait + 1) ++
          revokeEvs vmID granted⟩, .startWaitError) := by
  rw [startPhase]
  simp only [doCreateOperation, h, eq_self_iff_true, if_true, doStart, hst,
    doWait, hw, doCloseOperation, Bool.false_eq_true, if_false]
  rw [terminateAndClose_eq, revokeAll_eq]
  simp

theorem startPhase_ok (env : Env) (vmID : String) (granted : List String)
    (s : St) (h : env.opOk s.nOp = true) (hst : env.startOk = true)
    (hw : env.waitOk s.nWait = true) :
    startPhase env vmID granted s =
      (⟨s.nGrant, s.nOp + 1, s.nWait + 1,
        s.tr ++ [Event.opCreate s.nOp true, Event.startCall true,
          Event.waitCall s.nOp infinite (env.waitRes s.nWait) true,
          Event.opClose s.nOp, Event.sysClose]⟩, .ok vmID) := by
  rw [startPhase]
  simp only [doCreateOperation, h, eq_self_iff_true, if_true, doStart, hst,
    doWait, hw, doCloseOperation, doSysClose]
  simp

theorem createPhase_opFail (env : Env) (vmID : String)
    (doc : ComputeSystemSpec) (granted : List String) (s : St)
    (h : env.opOk s.nOp = false) :
    createPhase env vmID doc granted s =
      (⟨s.nGrant, s.nOp + 1, s.nWait,
        s.tr ++ [Event.opCreate s.nOp false] ++ revokeEvs vmID granted⟩,
       .opError) := by
  rw [createPhase]
  simp only [doCreateOperation, h, Bool.false_eq_true, if_false]
  rw [revokeAll_eq]

theorem createPhase_submitFail (env : Env) (vmID : String)
    (doc : ComputeSystemSpec) (granted : List String) (s : St)
    (h : env.opOk s.nOp = true) (hc : env.createOk = false) :
    createPhase env vmID doc granted s =
      (⟨s.nGrant, s.nOp + 1, s.nWait + 1,
        s.tr ++ [Event.opCreate s.nOp true, Event.createSysCall vmID doc false,
          Event.waitCall s.nOp infinite (env.waitRes s.nWait) (env.waitOk s.nWait),
          Event.opClose s.nOp] ++ revokeEvs vmID granted⟩,
       .createSubmitError) := by
  rw [createPhase]
  simp only [doCreateOperation, h, eq_self_iff_true, if_true, doCreateSys, hc,
    doWait, doCloseOperation, Bool.false_eq_true, if_false]
  rw [revokeAll_eq]
  simp

theorem createPhase_waitFail (env : Env) (vmID : String)
    (doc : ComputeSystemSpec) (granted : List String) (s : St)
    (h : env.opOk s.nOp = true) (hc : env.createOk = true)
    (hw : env.waitOk s.nWait = false) :
    createPhase env vmID doc granted s =
      (⟨s.nGrant, s.nOp + 1, s.nWait + 1,
        s.tr ++ [Event.opCreate s.nOp true, Event.createSysCall vmID doc true,
          Event.waitCall s.nOp infinite (env.waitRes s.nWait) false,
          Event.opClose s.nOp] ++ revokeEvs vmID granted⟩,
       .createWaitError (env.waitRes s.nWait)) := by
  rw [createPhase]
  simp only [doCreateOperation, h, eq_self_iff_true, if_true, doCreateSys, hc,
    doWait, hw, doCloseOperation, Bool.false_eq_true, if_false]
  rw [revokeAll_eq]
  simp

theorem createPhase_ok (env : Env) (vmID : String)
    (doc : ComputeSystemSpec) (granted : List String) (s : St)
    (h : env.opOk s.nOp = true) (hc : env.createOk = true)
    (hw : env.waitOk s.nWait = true) :
    createPhase env vmID doc granted s =
      startPhase env vmID granted
        ⟨s.nGrant, s.nOp + 1, s.nWait + 1,
          s.tr ++ [Event.opCreate s.nOp true, Event.createSysCall vmID doc true,
            Event.waitCall s.nOp infinite (env.waitRes s.nWait) true,
            Event.opClose s.nOp]⟩ := by
  rw [createPhase]
  simp only [doCreateOperation, h, eq_self_iff_true, if_true, doCreateSys, hc,
    doWait, hw, doCloseOperation]
  congr 1
  simp

/-- Path resolution success routes the transaction into `afterParse`. -/
theorem createAndStartVM_parse (env : Env) (spec : ComputeSystemSpec)
    (name : String) (addGPU : Bool) (spec2 : ComputeSystemSpec)
    (hAbs : makePathsAbsolute env.absFn
      (if spec.owner = "" then { spec with owner := "hcstool" } else spec) = .ok spec2) :
    createAndStartVM env spec name addGPU = afterParse env spec2 addGPU := by
  rw [createAndStartVM, hAbs]

/-- When the GPU step passes, `afterParse` is the grant loop followed by the
create phase. -/
theorem afterParse_grantOk (env : Env) (spec2 : ComputeSystemSpec)
    (addGPU : Bool) (hGpu : addGPU = true → env.gpuEnumOk = true ∧ ¬(env.gpuList = []))
    (ps : List String)
    (hps : extractVHDPaths (if addGPU then injectGPU spec2 env.gpuList else spec2) = ps)
    (hgrant : ∀ i, i < ps.length → env.grantOk i = true) :
    afterParse env spec2 addGPU =
      createPhase env (trimBraces env.guid)
        (if addGPU then injectGPU spec2 env.gpuList else spec2) ps
        ⟨ps.length, 0, 0, grantEvs (trimBraces env.guid) ps⟩ := by
  have hloop := grantLoop_ok env (trimBraces env.guid) ps St.init []
    (by simpa [St.init] using hgrant)
  cases addGPU with
  | false =>
    rw [afterParse,
      if_neg (show ¬((false = true) ∧ ¬env.gpuEnumOk = true) from by simp),
      if_neg (show ¬((false = true) ∧ env.gpuList = []) from by simp)]
    simp only [if_neg (show ¬(false = true) from by simp)] at hps ⊢
    rw [hps, hloop]
    simp [St.init]
  | true =>
    obtain ⟨he, hl⟩ := hGpu rfl
    rw [afterParse,
      if_neg (show ¬((true = true) ∧ ¬env.gpuEnumOk = true) from by simp [he]),
      if_neg (show ¬((true = true) ∧ env.gpuList = []) from by simp [hl])]
    simp only [if_pos (show (true = true) from rfl)] at hps ⊢
    rw [hps, hloop]
    simp [St.init]

/-- When a grant fails, `afterParse` revokes the already-granted paths and
aborts with the grant error. -/
theorem afterParse_grantFail (env : Env) (spec2 : ComputeSystemSpec)
    (addGPU : Bool) (hGpu : addGPU = true → env.gpuEnumOk = true ∧ ¬(env.gpuList = []))
    (ps : List String)
    (hps : extractVHDPaths (if addGPU then injectGPU spec2 env.gpuList else spec2) = ps)
    (K : Nat) (hK : K < ps.length)
    (hbefore : ∀ i, i < K → env.grantOk i = true)
    (hfail : env.grantOk K = false) :
    afterParse env spec2 addGPU =
      (⟨K + 1, 0, 0,
         grantEvs (trimBraces env.guid) (ps.take K) ++
           [Event.grantCall (trimBraces env.guid) (ps.get ⟨K, hK⟩) false] ++
           revokeEvs (trimBraces env.guid) (ps.take K)⟩,
       .grantError) := by
  have hloop := grantLoop_fail env (trimBraces env.guid) ps St.init [] K hK
    (by simpa [St.init] using hbefore) (by simpa [St.init] using hfail)
  cases addGPU with
  | false =>
    rw [afterParse,
      if_neg (show ¬((false = true) ∧ ¬env.gpuEnumOk = true) from by simp),
      if_neg (show ¬((false = true) ∧ env.gpuList = []) from by simp)]
    simp only [if_neg (show ¬(false = true) from by simp)] at hps ⊢
    rw [hps, hloop]
    simp [St.init]
  | true =>
    obtain ⟨he, hl⟩ := hGpu rfl
    rw [afterParse,
      if_neg (show ¬((true = true) ∧ ¬env.gpuEnumOk = true) from by simp [he]),
      if_neg (show ¬((true = true) ∧ env.gpuList = []) from by simp [hl])]
    simp only [if_pos (show (true = true) from rfl)] at hps ⊢
    rw [hps, hloop]
    simp [St.init]

/-! ## Event kinds and handle accounting -/

def isGrantEv : Event → Bool
  | .grantCall _ _ _ => true
  | _ => false

def isRevokeEv : Event → Bool
  | .revokeCall _ _ => true
  | _ => false

def isCreateSysEv : Event → Bool
  | .createSysCall _ _ _ => true
  | _ => false

def isStartEv : Event → Bool
  | .startCall _ => true
  | _ => false

def isTermEv : Event → Bool
  | .terminateCall _ => true
  | _ => false

def isSysCloseEv : Event → Bool
  | .sysClose => true
  | _ => false

/-- Handles opened successfully, in order of opening. -/
def openedHandles (tr : List Event) : List Nat :=
  tr.filterMap (fun e => match e with
    | .opCreate h ok => if ok then some h else none
    | _ => none)

/-- Handles closed, in order of closing. -/
def closedHandles (tr : List Event) : List Nat :=
  tr.filterMap (fun e => match e with
    | .opClose h => some h
    | _ => none)

theorem openedHandles_append (a b : List Event) :
    openedHandles (a ++ b) = openedHandles a ++ openedHandles b :=
  List.filterMap_append a b _

theorem closedHandles_append (a b : List Event) :
    closedHandles (a ++ b) = closedHandles a ++ closedHandles b :=
  List.filterMap_append a b _

theorem openedHandles_grantEvs (v : String) (ps : List String) :
    openedHandles (grantEvs v ps) = [] := by
  induction ps with
  | nil => rfl
  | cons p rest ih => simpa [grantEvs, openedHandles, List.filterMap_cons] using ih

theorem closedHandles_grantEvs (v : String) (ps : List String) :
    closedHandles (grantEvs v ps) = [] := by
  induction ps with
  | nil => rfl
  | cons p rest ih => simpa [grantEvs, closedHandles, List.filterMap_cons] using ih

theorem openedHandles_revokeEvs (v : String) (ps : List String) :
    openedHandles (revokeEvs v ps) = [] := by
  induction ps with
  | nil => rfl
  | cons p rest ih => simpa [revokeEvs, openedHandles, List.filterMap_cons] using ih

theorem closedHandles_revokeEvs (v : String) (ps : List String) :
    closedHandles (revokeEvs v ps) = [] := by
  induction ps with
  | nil => rfl
  | cons p rest ih => simpa [revokeEvs, closedHandles, List.filterMap_cons] using ih

theorem openedHandles_tacEvs (env : Env) (a b : Nat) :
    openedHandles (tacEvs env a b) = if env.opOk a then [a] else [] := by
  by_cases h : env.opOk a = true
  · simp [tacEvs, h, openedHandles, List.filterMap_cons]
  · have h' : env.opOk a = false := by simpa using h
    simp [tacEvs, h', openedHandles, List.filterMap_cons]

theorem closedHandles_tacEvs (env : Env) (a b : Nat) :
    closedHandles (tacEvs env a b) = if env.opOk a then [a] else [] := by
  by_cases h : env.opOk a = true
  · simp [tacEvs, h, closedHandles, List.filterMap_cons]
  · have h' : env.opOk a = false := by simpa using h
    simp [tacEvs, h', closedHandles, List.filterMap_cons]

theorem tacEvs_kinds (env : Env) (a b : Nat) :
    ∀ e ∈ tacEvs env a b, isGrantEv e = false ∧ isCreateSysEv e = false ∧
      isRevokeEv e = false ∧ isStartEv e = false := by
  intro e he
  by_cases h : env.opOk a = true
  · rw [tacEvs, if_pos h] at he
    simp only [List.mem_cons, List.not_mem_nil, or_false] at he
    rcases he with rfl | rfl | rfl | rfl | rfl <;>
      exact ⟨rfl, rfl, rfl, rfl⟩
  · rw [tacEvs, if_neg h] at he
    simp only [List.mem_cons, List.not_mem_nil, or_false] at he
    rcases he with rfl | rfl <;> exact ⟨rfl, rfl, rfl, rfl⟩

/-- The grant loop only appends grant and revoke events, and leaves the
operation and wait counters untouched; the granted list grows within the
supplied paths. -/
theorem grantLoop_shape (env : Env) (vmID : String) (ps : List String) :
    ∀ (s : St) (granted : List String),
      ∃ Δ, (grantLoop env vmID s granted ps).1.tr = s.tr ++ Δ ∧
        (∀ e ∈ Δ, (∃ p ∈ ps, ∃ ok, e = Event.grantCall vmID p ok) ∨
          (∃ p ∈ granted ++ ps, e = Event.revokeCall vmID p)) ∧
        (grantLoop env vmID s granted ps).1.nOp = s.nOp ∧
        (grantLoop env vmID s granted ps).1.nWait = s.nWait ∧
        (∀ p ∈ (grantLoop env vmID s granted ps).2.1, p ∈ granted ++ ps) := by
  induction ps with
  | nil =>
    intro s granted
    exact ⟨[], by simp [grantLoop], by simp, rfl, rfl, by simp [grantLoop]⟩
  | cons q rest ih =>
    intro s granted
    by_cases h : env.grantOk s.nGrant = true
    · obtain ⟨Δ, htr, hkinds, hop, hwait, hgr⟩ := ih
        ⟨s.nGrant + 1, s.nOp, s.nWait, s.tr ++ [Event.grantCall vmID q true]⟩
        (granted ++ [q])
      refine ⟨Event.grantCall vmID q true :: Δ, ?_, ?_, ?_, ?_, ?_⟩
      · rw [grantLoop]
        simp only [doGrant, h, eq_self_iff_true, if_true]
        rw [htr]
        simp
      · intro e he
        rcases List.mem_cons.mp he with rfl | he
        · exact Or.inl ⟨q, by simp, true, rfl⟩
        · rcases hkinds e he with ⟨p, hp, ok, rfl⟩ | ⟨p, hp, rfl⟩
          · exact Or.inl ⟨p, by simp [hp], ok, rfl⟩
          · refine Or.inr ⟨p, ?_, rfl⟩
            rcases List.mem_append.mp hp with hp | hp
            · rcases List.mem_append.mp hp with hp | hp
              · simp [hp]
              · simp [List.mem_singleton.mp hp]
            · simp [hp]
      · rw [grantLoop]
        simp only [doGrant, h, eq_self_iff_true, if_true]
        exact hop
      · rw [grantLoop]
        simp only [doGrant, h, eq_self_iff_true, if_true]
        exact hwait
      · rw [grantLoop]
        simp only [doGrant, h, eq_self_iff_true, if_true]
        intro p hp
        rcases List.mem_append.mp (hgr p hp) with hp2 | hp2
        · rcases List.mem_append.mp hp2 with hp3 | hp3
          · simp [hp3]
          · simp [List.mem_singleton.mp hp3]
        · simp [hp2]
    · have h' : env.grantOk s.nGrant = false := by simpa using h
      refine ⟨Event.grantCall vmID q false :: revokeEvs vmID granted, ?_, ?_, ?_, ?_, ?_⟩
      · rw [grantLoop]
        simp only [doGrant, h', Bool.false_eq_true, if_false]
        rw [revokeAll_eq]
        simp
      · intro e he
        rcases List.mem_cons.mp he with rfl | he
        · exact Or.inl ⟨q, by simp, false, rfl⟩
        · rw [revokeEvs] at he
          obtain ⟨p, hp, rfl⟩ := List.mem_map.mp he
          exact Or.inr ⟨p, by simp [hp], rfl⟩
      · rw [grantLoop]
        simp only [doGrant, h', Bool.false_eq_true, if_false]
        rw [revokeAll_eq]
      · rw [grantLoop]
        simp only [doGrant, h', Bool.false_eq_true, if_false]
        rw [revokeAll_eq]
      · rw [grantLoop]
        simp only [doGrant, h', Bool.false_eq_true, if_false]
        intro p hp
        simp [hp]

theorem revokeEvs_kinds (v : String) (ps : List String) :
    ∀ e ∈ revokeEvs v ps, isGrantEv e = false ∧ isCreateSysEv e = false ∧
      ∃ p ∈ ps, e = Event.revokeCall v p := by
  intro e he
  rw [revokeEvs] at he
  obtain ⟨p, hp, rfl⟩ := List.mem_map.mp he
  exact ⟨rfl, rfl, p, hp, rfl⟩

/-- The start phase appends no grant and no create-system events, and its
revocations are of previously granted paths only. -/
theorem startPhase_shape (env : Env) (vmID : String) (granted : List String)
    (s : St) :
    ∃ Δ, (startPhase env vmID granted s).1.tr = s.tr ++ Δ ∧
      ∀ e ∈ Δ, isGrantEv e = false ∧ isCreateSysEv e = false ∧
        (isRevokeEv e = true → ∃ p ∈ granted, e = Event.revokeCall vmID p) := by
  by_cases h : env.opOk s.nOp = true
  · by_cases hst : env.startOk = true
    · by_cases hw : env.waitOk s.nWait = true
      · rw [startPhase_ok env vmID granted s h hst hw]
        refine ⟨_, rfl, ?_⟩
        intro e he
        simp only [List.mem_cons, List.not_mem_nil, or_false] at he
        rcases he with rfl | rfl | rfl | rfl | rfl <;>
          exact ⟨rfl, rfl, by intro hc; exact absurd hc (by simp [isRevokeEv])⟩
      · have hw' : env.waitOk s.nWait = false := by simpa using hw
        rw [startPhase_waitFail env vmID granted s h hst hw']
        refine ⟨[Event.opCreate s.nOp true, Event.startCall true,
          Event.waitCall s.nOp infinite (env.waitRes s.nWait) false,
          Event.opClose s.nOp] ++ tacEvs env (s.nOp + 1) (s.nWait + 1) ++
          revokeEvs vmID granted, by simp, ?_⟩
        intro e he
        rcases List.mem_append.mp he with he | he
        · rcases List.mem_append.mp he with he | he
          · simp only [List.mem_cons, List.not_mem_nil, or_false] at he
            rcases he with rfl | rfl | rfl | rfl <;>
              exact ⟨rfl, rfl, by intro hc; exact absurd hc (by simp [isRevokeEv])⟩
          · obtain ⟨h1, h2, h3, _⟩ := tacEvs_kinds env (s.nOp + 1) (s.nWait + 1) e he
            exact ⟨h1, h2, by intro hc; rw [h3] at hc; exact absurd hc (by simp)⟩
        · obtain ⟨h1, h2, p, hp, rfl⟩ := revokeEvs_kinds vmID granted e he
          exact ⟨h1, h2, fun _ => ⟨p, hp, rfl⟩⟩
    · have hst' : env.startOk = false := by simpa using hst
      rw [startPhase_startFail env vmID granted s h hst']
      refine ⟨[Event.opCreate s.nOp true, Event.startCall false,
        Event.opClose s.nOp] ++ tacEvs env (s.nOp + 1) s.nWait ++
        revokeEvs vmID granted, by simp, ?_⟩
      intro e he
      rcases List.mem_append.mp he with he | he
      · rcases List.mem_append.mp he with he | he
        · simp only [List.mem_cons, List.not_mem_nil, or_false] at he
          rcases he with rfl | rfl | rfl <;>
            exact ⟨rfl, rfl, by intro hc; exact absurd hc (by simp [isRevokeEv])⟩
        · obtain ⟨h1, h2, h3, _⟩ := tacEvs_kinds env (s.nOp + 1) s.nWait e he
          exact ⟨h1, h2, by intro hc; rw [h3] at hc; exact absurd hc (by simp)⟩
      · obtain ⟨h1, h2, p, hp, rfl⟩ := revokeEvs_kinds vmID granted e he
        exact ⟨h1, h2, fun _ => ⟨p, hp, rfl⟩⟩
  · have h' : env.opOk s.nOp = false := by simpa using h
    rw [startPhase_opFail env vmID granted s h']
    refine ⟨[Event.opCreate s.nOp false] ++ tacEvs env (s.nOp + 1) s.nWait ++
      revokeEvs vmID granted, by simp, ?_⟩
    intro e he
    rcases List.mem_append.mp he with he | he
    · rcases List.mem_append.mp he with he | he
      · simp only [List.mem_cons, List.not_mem_nil, or_false] at he
        rcases he with rfl <;>
          exact ⟨rfl, rfl, by intro hc; exact absurd hc (by simp [isRevokeEv])⟩
      · obtain ⟨h1, h2, h3, _⟩ := tacEvs_kinds env (s.nOp + 1) s.nWait e he
        exact ⟨h1, h2, by intro hc; rw [h3] at hc; exact absurd hc (by simp)⟩
    · obtain ⟨h1, h2, p, hp, rfl⟩ := revokeEvs_kinds vmID granted e he
      exact ⟨h1, h2, fun _ => ⟨p, hp, rfl⟩⟩

/-- The create phase appends no grant events; its only create-system event
carries the transformed document and the minted identity; its revocations
are of previously granted paths only. -/
theorem createPhase_shape (env : Env) (vmID : String) (doc : ComputeSystemSpec)
    (granted : List String) (s : St) :
    ∃ Δ, (createPhase env vmID doc granted s).1.tr = s.tr ++ Δ ∧
      ∀ e ∈ Δ, isGrantEv e = false ∧
        (isCreateSysEv e = true → e = Event.createSysCall vmID doc env.createOk) ∧
        (isRevokeEv e = true → ∃ p ∈ granted, e = Event.revokeCall vmID p) := by
  by_cases h : env.opOk s.nOp = true
  · by_cases hc : env.createOk = true
    · by_cases hw : env.waitOk s.nWait = true
      · rw [createPhase_ok env vmID doc granted s h hc hw]
        obtain ⟨Δ, htr, hk⟩ := startPhase_shape env vmID granted
          ⟨s.nGrant, s.nOp + 1, s.nWait + 1,
            s.tr ++ [Event.opCreate s.nOp true, Event.createSysCall vmID doc true,
              Event.waitCall s.nOp infinite (env.waitRes s.nWait) true,
              Event.opClose s.nOp]⟩
        refine ⟨[Event.opCreate s.nOp true, Event.createSysCall vmID doc true,
          Event.waitCall s.nOp infinite (env.waitRes s.nWait) true,
          Event.opClose s.nOp] ++ Δ, by rw [htr]; simp, ?_⟩
        intro e he
        rcases List.mem_append.mp he with he | he
        · simp only [List.mem_cons, List.not_mem_nil, or_false] at he
          rcases he with rfl | rfl | rfl | rfl
          · exact ⟨rfl, by intro hcon; exact absurd hcon (by simp [isCreateSysEv]),
              by intro hcon; exact absurd hcon (by simp [isRevokeEv])⟩
          · exact ⟨rfl, by intro _; rw [hc],
              by intro hcon; exact absurd hcon (by simp [isRevokeEv])⟩
          · exact ⟨rfl, by intro hcon; exact absurd hcon (by simp [isCreateSysEv]),
              by intro hcon; exact absurd hcon (by simp [isRevokeEv])⟩
          · exact ⟨rfl, by intro hcon; exact absurd hcon (by simp [isCreateSysEv]),
              by intro hcon; exact absurd hcon (by simp [isRevokeEv])⟩
        · obtain ⟨h1, h2, h3⟩ := hk e he
          exact ⟨h1, by intro hcon; rw [h2] at hcon; exact absurd hcon (by simp), h3⟩
      · have hw' : env.waitOk s.nWait = false := by simpa using hw
        rw [createPhase_waitFail env vmID doc granted s h hc hw']
        refine ⟨[Event.opCreate s.nOp true, Event.createSysCall vmID doc true,
          Event.waitCall s.nOp infinite (env.waitRes s.nWait) false,
          Event.opClose s.nOp] ++ revokeEvs vmID granted, by simp, ?_⟩
        intro e he
        rcases List.mem_append.mp he with he | he
        · simp only [List.mem_cons, List.not_mem_nil, or_false] at he
          rcases he with rfl | rfl | rfl | rfl
          · exact ⟨rfl, by intro hcon; exact absurd hcon (by simp [isCreateSysEv]),
              by intro hcon; exact absurd hcon (by simp [isRevokeEv])⟩
          · exact ⟨rfl, by intro _; rw [hc],
              by intro hcon; exact absurd hcon (by simp [isRevokeEv])⟩
          · exact ⟨rfl, by intro hcon; exact absurd hcon (by simp [isCreateSysEv]),
              by intro hcon; exact absurd hcon (by simp [isRevokeEv])⟩
          · exact ⟨rfl, by intro hcon; exact absurd hcon (by simp [isCreateSysEv]),
              by intro hcon; exact absurd hcon (by simp [isRevokeEv])⟩
        · obtain ⟨h1, h2, p, hp, rfl⟩ := revokeEvs_kinds vmID granted e he
          exact ⟨h1, by intro hcon; rw [h2] at hcon; exact absurd hcon (by simp),
            fun _ => ⟨p, hp, rfl⟩⟩
    · have hc' : env.createOk = false := by simpa using hc
      rw [createPhase_submitFail env vmID doc granted s h hc']
      refine ⟨[Event.opCreate s.nOp true, Event.createSysCall vmID doc false,
        Event.waitCall s.nOp infinite (env.waitRes s.nWait) (env.waitOk s.nWait),
        Event.opClose s.nOp] ++ revokeEvs vmID granted, by simp, ?_⟩
      intro e he
      rcases List.mem_append.mp he with he | he
      · simp only [List.mem_cons, List.not_mem_nil, or_false] at he
        rcases he with rfl | rfl | rfl | rfl
        · exact ⟨rfl, by intro hcon; exact absurd hcon (by simp [isCreateSysEv]),
            by intro hcon; exact absurd hcon (by simp [isRevokeEv])⟩
        · exact ⟨rfl, by intro _; rw [hc'],
            by intro hcon; exact absurd hcon (by simp [isRevokeEv])⟩
        · exact ⟨rfl, by intro hcon; exact absurd hcon (by simp [isCreateSysEv]),
            by intro hcon; exact absurd hcon (by simp [isRevokeEv])⟩
        · exact ⟨rfl, by intro hcon; exact absurd hcon (by simp [isCreateSysEv]),
            by intro hcon; exact absurd hcon (by simp [isRevokeEv])⟩
      · obtain ⟨h1, h2, p, hp, rfl⟩ := revokeEvs_kinds vmID granted e he
        exact ⟨h1, by intro hcon; rw [h2] at hcon; exact absurd hcon (by simp),
          fun _ => ⟨p, hp, rfl⟩⟩
  · have h' : env.opOk s.nOp = false := by simpa using h
    rw [createPhase_opFail env vmID doc granted s h']
    refine ⟨[Event.opCreate s.nOp false] ++ revokeEvs vmID granted, by simp, ?_⟩
    intro e he
    rcases List.mem_append.mp he with he | he
    · simp only [List.mem_cons, List.not_mem_nil, or_false] at he
      rcases he with rfl
      exact ⟨rfl, by intro hcon; exact absurd hcon (by simp [isCreateSysEv]),
        by intro hcon; exact absurd hcon (by simp [isRevokeEv])⟩
    · obtain ⟨h1, h2, p, hp, rfl⟩ := revokeEvs_kinds vmID granted e he
      exact ⟨h1, by intro hcon; rw [h2] at hcon; exact absurd hcon (by simp),
        fun _ => ⟨p, hp, rfl⟩⟩

/-- When the GPU step passes, `afterParse` is the grant loop followed by
the create phase (projection form). -/
theorem afterParse_grant_cases (env : Env) (spec2 : ComputeSystemSpec)
    (addGPU : Bool) (h1 : ¬(addGPU = true ∧ ¬env.gpuEnumOk = true))
    (h2 : ¬(addGPU = true ∧ env.gpuList = [])) :
    afterParse env spec2 addGPU =
      (if (grantLoop env (trimBraces env.guid) St.init []
            (extractVHDPaths (if addGPU then injectGPU spec2 env.gpuList else spec2))).2.2 then
        createPhase env (trimBraces env.guid)
          (if addGPU then injectGPU spec2 env.gpuList else spec2)
          (grantLoop env (trimBraces env.guid) St.init []
            (extractVHDPaths (if addGPU then injectGPU spec2 env.gpuList else spec2))).2.1
          (grantLoop env (trimBraces env.guid) St.init []
            (extractVHDPaths (if addGPU then injectGPU spec2 env.gpuList else spec2))).1
      else ((grantLoop env (trimBraces env.guid) St.init []
            (extractVHDPaths (if addGPU then injectGPU spec2 env.gpuList else spec2))).1,
        .grantError)) := by
  rw [afterParse, if_neg h1, if_neg h2]

/-! ## Transformer lemmas -/

theorem extract_injectGPU (spec : ComputeSystemSpec) (gpus : List GpuDevice) :
    extractVHDPaths (injectGPU spec gpus) = extractVHDPaths spec := by
  rcases spec with ⟨o, sv, st, vm⟩
  cases vm with
  | none => rfl
  | some v =>
    rcases v with ⟨sr, ch, ct, dev⟩
    cases dev with
    | none => rfl
    | some d => rfl

theorem extract_defaultOwner (spec : ComputeSystemSpec) :
    extractVHDPaths
      (if spec.owner = "" then { spec with owner := "hcstool" } else spec) =
    extractVHDPaths spec := by
  rcases spec with ⟨o, sv, st, vm⟩
  by_cases h : o = ""
  · simp only [h, if_pos rfl]
    rfl
  · rw [if_neg (by simpa using h)]

/-- The head component is nonempty, so the rendered body is nonempty. -/
theorem renderBody_ne_nil {rooted : Bool} {comps : List (List Char)}
    (hgood : ∀ c ∈ comps, goodComp c) : renderBody rooted comps ≠ [] := by
  cases rooted with
  | true => rw [renderBody_true]; simp
  | false =>
    cases comps with
    | nil => rw [renderBody_false_nil]; simp
    | cons c rest =>
      rw [renderBody_false_cons]
      obtain ⟨hc, _⟩ := hgood c (by simp)
      match c, hc with
      | x :: c1, _ =>
        obtain ⟨tl, htl⟩ := joinComps_cons_head x c1 rest
        rw [htl]
        simp

theorem goCleanList_ne_nil (cs : List Char) : goCleanList cs ≠ [] := by
  rcases hdrop : cs.drop (volumeLen cs) with _ | ⟨r, t⟩
  · rw [goCleanList_eq_nil hdrop]
    simp
  · rw [goCleanList_eq_cons hdrop]
    intro hcontra
    obtain ⟨_, hbody⟩ := List.append_eq_nil.mp hcontra
    have hgood : ∀ c ∈ cleanComps (isSlash r) (splitComps (r :: t)), goodComp c :=
      cleanComps_good _ (splitComps_good _)
    by_cases hifc : (volumeLen cs = 0 && !(isSlash r) &&
        colonHead (cleanComps (isSlash r) (splitComps (r :: t)))) = true
    · rw [if_pos hifc] at hbody
      simp at hbody
    · rw [if_neg hifc] at hbody
      exact renderBody_ne_nil hgood hbody

theorem goClean_ne_empty (s : String) : goClean s ≠ "" := by
  intro h
  apply goCleanList_ne_nil s.data
  have : (goClean s).data = ("" : String).data := by rw [h]
  simpa [goClean] using this

theorem goAbs_ne_empty (cwd p : String) : goAbs cwd p ≠ "" := by
  unfold goAbs
  by_cases hp : goIsAbs p = true
  · rw [if_pos hp]
    exact goClean_ne_empty p
  · rw [if_neg hp]
    exact goClean_ne_empty _

/-- Every path placed by the attachment rewriting is absolute. -/
theorem attPaths_absAtts {cwd : String} (hcwd : goIsAbs cwd = true) :
    ∀ (atts atts2 : List (String × Option ScsiAttachment)),
      absAtts (goAbsFn cwd) atts = .ok atts2 →
      ∀ p ∈ attPaths atts2, goIsAbs p = true := by
  intro atts
  induction atts with
  | nil =>
    intro atts2 h p hp
    rw [absAtts] at h
    injection h with h
    rw [← h] at hp
    simp [attPaths] at hp
  | cons ka rest ih =>
    intro atts2 h p hp
    rcases ka with ⟨k, a⟩
    cases a with
    | none =>
      rw [absAtts] at h
      rcases habs : absAtts (goAbsFn cwd) rest with e | r2
      · rw [habs] at h
        exact absurd h (by simp [Except.map])
      · rw [habs] at h
        simp only [Except.map] at h
        injection h with h
        rw [← h] at hp
        rw [attPaths] at hp
        exact ih r2 habs p hp
    | some a =>
      rw [absAtts] at h
      by_cases hpath : a.path ≠ ""
      · rw [if_pos hpath] at h
        simp only [goAbsFn] at h
        rcases habs : absAtts (goAbsFn cwd) rest with e | r2
        · rw [habs] at h
          exact absurd h (by simp [Except.map])
        · rw [habs] at h
          simp only [Except.map] at h
          injection h with h
          rw [← h] at hp
          rw [attPaths] at hp
          by_cases hq : goAbs cwd a.path ≠ ""
          · rw [if_pos hq] at hp
            rcases List.mem_cons.mp hp with rfl | hp
            · exact goAbs_abs a.path hcwd
            · exact ih r2 habs p hp
          · rw [if_neg hq] at hp
            exact ih r2 habs p hp
      · rw [if_neg hpath] at h
        rcases habs : absAtts (goAbsFn cwd) rest with e | r2
        · rw [habs] at h
          exact absurd h (by simp [Except.map])
        · rw [habs] at h
          simp only [Except.map] at h
          injection h with h
          rw [← h] at hp
          rw [attPaths] at hp
          have hpath' : a.path = "" := by simpa using hpath
          rw [if_neg (by simp [hpath'])] at hp
          exact ih r2 habs p hp

/-- Every path visible after the controller rewriting is absolute. -/
theorem ctrlPaths_absCtrls {cwd : String} (hcwd : goIsAbs cwd = true) :
    ∀ (cs cs2 : List (String × Option ScsiController)),
      absCtrls (goAbsFn cwd) cs = .ok cs2 →
      ∀ p ∈ ctrlPaths cs2, goIsAbs p = true := by
  intro cs
  induction cs with
  | nil =>
    intro cs2 h p hp
    rw [absCtrls] at h
    injection h with h
    rw [← h] at hp
    simp [ctrlPaths] at hp
  | cons kc rest ih =>
    intro cs2 h p hp
    rcases kc with ⟨k, c⟩
    cases c with
    | none =>
      rw [absCtrls] at h
      rcases habs : absCtrls (goAbsFn cwd) rest with e | r2
      · rw [habs] at h
        exact absurd h (by simp [Except.map])
      · rw [habs] at h
        simp only [Except.map] at h
        injection h with h
        rw [← h] at hp
        rw [ctrlPaths] at hp
        exact ih r2 habs p hp
    | some c =>
      rw [absCtrls] at h
      rcases hatts : absAtts (goAbsFn cwd) c.attachments with e | atts2
      · rw [hatts] at h
        exact absurd h (by simp)
      · rw [hatts] at h
        rcases habs : absCtrls (goAbsFn cwd) rest with e | r2
        · rw [habs] at h
          exact absurd h (by simp [Except.map])
        · rw [habs] at h
          simp only [Except.map] at h
          injection h with h
          rw [← h] at hp
          rw [ctrlPaths] at hp
          rcases List.mem_append.mp hp with hp | hp
          · exact attPaths_absAtts hcwd c.attachments atts2 hatts p hp
          · exact ih r2 habs p hp

/-- Every SCSI path of the resolved document is absolute. -/
theorem extract_makePathsAbsolute_abs {cwd : String} (hcwd : goIsAbs cwd = true)
    (spec spec2 : ComputeSystemSpec)
    (h : makePathsAbsolute (goAbsFn cwd) spec = .ok spec2) :
    ∀ p ∈ extractVHDPaths spec2, goIsAbs p = true := by
  intro p hp
  rcases hvm : spec.virtualMachine with _ | vm
  · simp only [makePathsAbsolute, hvm] at h
    injection h with h
    rw [← h] at hp
    simp only [extractVHDPaths, hvm] at hp
    exact absurd hp (by simp)
  · rcases hdev : vm.devices with _ | d
    · simp only [makePathsAbsolute, hvm, hdev] at h
      injection h with h
      rw [← h] at hp
      simp only [extractVHDPaths, hvm, hdev] at hp
      exact absurd hp (by simp)
    · simp only [makePathsAbsolute, hvm, hdev] at h
      rcases hctr : absCtrls (goAbsFn cwd) d.scsi with e | scsi2
      · simp [hctr] at h
      · simp only [hctr] at h
        injection h with h
        rw [← h] at hp
        simp only [extractVHDPaths] at hp
        exact ctrlPaths_absCtrls hcwd d.scsi scsi2 hctr p hp

/-- The attachment rewriting is idempotent. -/
theorem absAtts_idem {cwd : String} (hcwd : goIsAbs cwd = true) :
    ∀ (atts atts2 : List (String × Option ScsiAttachment)),
      absAtts (goAbsFn cwd) atts = .ok atts2 →
      absAtts (goAbsFn cwd) atts2 = .ok atts2 := by
  intro atts
  induction atts with
  | nil =>
    intro atts2 h
    rw [absAtts] at h
    injection h with h
    rw [← h]
    rfl
  | cons ka rest ih =>
    intro atts2 h
    rcases ka with ⟨k, a⟩
    cases a with
    | none =>
      rw [absAtts] at h
      rcases habs : absAtts (goAbsFn cwd) rest with e | r2
      · rw [habs] at h
        exact absurd h (by simp [Except.map])
      · rw [habs] at h
        simp only [Except.map] at h
        injection h with h
        rw [← h, absAtts, ih r2 habs]
        rfl
    | some a =>
      rw [absAtts] at h
      by_cases hpath : a.path ≠ ""
      · rw [if_pos hpath] at h
        simp only [goAbsFn] at h
        rcases habs : absAtts (goAbsFn cwd) rest with e | r2
        · rw [habs] at h
          exact absurd h (by simp [Except.map])
        · rw [habs] at h
          simp only [Except.map] at h
          injection h with h
          rw [← h, absAtts,
            if_pos (show ¬({ a with path := goAbs cwd a.path } :
              ScsiAttachment).path = "" from goAbs_ne_empty cwd a.path)]
          simp only [goAbsFn, goAbs_idem cwd a.path hcwd]
          rw [ih r2 habs]
          rfl
      · rw [if_neg hpath] at h
        rcases habs : absAtts (goAbsFn cwd) rest with e | r2
        · rw [habs] at h
          exact absurd h (by simp [Except.map])
        · rw [habs] at h
          simp only [Except.map] at h
          injection h with h
          rw [← h, absAtts, if_neg hpath, ih r2 habs]
          rfl

/-- The controller rewriting is idempotent. -/
theorem absCtrls_idem {cwd : String} (hcwd : goIsAbs cwd = true) :
    ∀ (cs cs2 : List (String × Option ScsiController)),
      absCtrls (goAbsFn cwd) cs = .ok cs2 →
      absCtrls (goAbsFn cwd) cs2 = .ok cs2 := by
  intro cs
  induction cs with
  | nil =>
    intro cs2 h
    rw [absCtrls] at h
    injection h with h
    rw [← h]
    rfl
  | cons kc rest ih =>
    intro cs2 h
    rcases kc with ⟨k, c⟩
    cases c with
    | none =>
      rw [absCtrls] at h
      rcases habs : absCtrls (goAbsFn cwd) rest with e | r2
      · rw [habs] at h
        exact absurd h (by simp [Except.map])
      · rw [habs] at h
        simp only [Except.map] at h
        injection h with h
        rw [← h, absCtrls, ih r2 habs]
        rfl
    | some c =>
      rw [absCtrls] at h
      rcases hatts : absAtts (goAbsFn cwd) c.attachments with e | atts2
      · rw [hatts] at h
        exact absurd h (by simp)
      · rw [hatts] at h
        rcases habs : absCtrls (goAbsFn cwd) rest with e | r2
        · rw [habs] at h
          exact absurd h (by simp [Except.map])
        · rw [habs] at h
          simp only [Except.map] at h
          injection h with h
          rw [← h, absCtrls,
            show ({ c with attachments := atts2 } : ScsiController).attachments =
              atts2 from rfl,
            absAtts_idem hcwd c.attachments atts2 hatts, ih r2 habs]
          rfl

/-- Document-level idempotence of path resolution. -/
theorem makePathsAbsolute_idem {cwd : String} (hcwd : goIsAbs cwd = true)
    (spec spec2 : ComputeSystemSpec)
    (h : makePathsAbsolute (goAbsFn cwd) spec = .ok spec2) :
    makePathsAbsolute (goAbsFn cwd) spec2 = .ok spec2 := by
  rcases hvm : spec.virtualMachine with _ | vm
  · simp only [makePathsAbsolute, hvm] at h
    injection h with h
    rw [← h]
    simp only [makePathsAbsolute, hvm]
  · rcases hdev : vm.devices with _ | d
    · simp only [makePathsAbsolute, hvm, hdev] at h
      injection h with h
      rw [← h]
      simp only [makePathsAbsolute, hvm, hdev]
    · simp only [makePathsAbsolute, hvm, hdev] at h
      rcases hctr : absCtrls (goAbsFn cwd) d.scsi with e | scsi2
      · simp [hctr] at h
      · simp only [hctr] at h
        injection h with h
        rw [← h]
        simp only [makePathsAbsolute]
        rw [absCtrls_idem hcwd d.scsi scsi2 hctr]

/-! ## Documents without reachable SCSI attachments -/

/-- The virtual-machine section, device section, SCSI controllers or SCSI
attachments are absent or nil. -/
def noScsiAttachments (spec : ComputeSystemSpec) : Prop :=
  match spec.virtualMachine with
  | none => True
  | some vm =>
    match vm.devices with
    | none => True
    | some d => ∀ kc ∈ d.scsi, kc.2 = none ∨
        ∃ ctrl, kc.2 = some ctrl ∧ ∀ ka ∈ ctrl.attachments, ka.2 = none

theorem attPaths_all_none (atts : List (String × Option ScsiAttachment))
    (h : ∀ ka ∈ atts, ka.2 = none) : attPaths atts = [] := by
  induction atts with
  | nil => rfl
  | cons ka rest ih =>
    rcases ka with ⟨k, a⟩
    have := h (k, a) (by simp)
    simp only at this
    subst this
    rw [attPaths]
    exact ih (fun x hx => h x (by simp [hx]))

theorem absAtts_all_none (absFn : String → Except String String)
    (atts : List (String × Option ScsiAttachment))
    (h : ∀ ka ∈ atts, ka.2 = none) : absAtts absFn atts = .ok atts := by
  induction atts with
  | nil => rfl
  | cons ka rest ih =>
    rcases ka with ⟨k, a⟩
    have := h (k, a) (by simp)
    simp only at this
    subst this
    rw [absAtts, ih (fun x hx => h x (by simp [hx]))]
    rfl

theorem ctrlPaths_noScsi (cs : List (String × Option ScsiController))
    (h : ∀ kc ∈ cs, kc.2 = none ∨
      ∃ ctrl, kc.2 = some ctrl ∧ ∀ ka ∈ ctrl.attachments, ka.2 = none) :
    ctrlPaths cs = [] := by
  induction cs with
  | nil => rfl
  | cons kc rest ih =>
    rcases kc with ⟨k, c⟩
    rcases h (k, c) (by simp) with hc | ⟨ctrl, hc, hatts⟩
    · simp only at hc
      subst hc
      rw [ctrlPaths]
      exact ih (fun x hx => h x (by simp [hx]))
    · simp only at hc
      subst hc
      rw [ctrlPaths, attPaths_all_none ctrl.attachments hatts,
        ih (fun x hx => h x (by simp [hx]))]
      rfl

theorem absCtrls_noScsi (absFn : String → Except String String)
    (cs : List (String × Option ScsiController))
    (h : ∀ kc ∈ cs, kc.2 = none ∨
      ∃ ctrl, kc.2 = some ctrl ∧ ∀ ka ∈ ctrl.attachments, ka.2 = none) :
    absCtrls absFn cs = .ok cs := by
  induction cs with
  | nil => rfl
  | cons kc rest ih =>
    rcases kc with ⟨k, c⟩
    rcases h (k, c) (by simp) with hc | ⟨ctrl, hc, hatts⟩
    · simp only at hc
      subst hc
      rw [absCtrls, ih (fun x hx => h x (by simp [hx]))]
      rfl
    · simp only at hc
      subst hc
      rw [absCtrls, absAtts_all_none absFn ctrl.attachments hatts,
        ih (fun x hx => h x (by simp [hx]))]
      rfl

theorem extract_noScsi {spec : ComputeSystemSpec} (h : noScsiAttachments spec) :
    extractVHDPaths spec = [] := by
  rcases hvm : spec.virtualMachine with _ | vm
  · rw [extractVHDPaths, hvm]
  · rcases hdev : vm.devices with _ | d
    · simp only [extractVHDPaths, hvm, hdev]
    · simp only [noScsiAttachments, hvm, hdev] at h
      simp only [extractVHDPaths, hvm, hdev]
      exact ctrlPaths_noScsi d.scsi h

theorem makePathsAbsolute_noScsi {spec : ComputeSystemSpec}
    (h : noScsiAttachments spec) (absFn : String → Except String String) :
    makePathsAbsolute absFn spec = .ok spec := by
  rcases hvm : spec.virtualMachine with _ | vm
  · simp only [makePathsAbsolute, hvm]
  · rcases hdev : vm.devices with _ | d
    · simp only [makePathsAbsolute, hvm, hdev]
    · simp only [noScsiAttachments, hvm, hdev] at h
      simp only [makePathsAbsolute, hvm, hdev, absCtrls_noScsi absFn d.scsi h]
      have hd : ({ d with scsi := d.scsi } : DevicesSpec) = d := rfl
      rw [hd, ← hdev]
      have hv : ({ vm with devices := vm.devices } : VirtualMachineSpec) = vm := rfl
      rw [hv, ← hvm]

/-! ## Handle accounting over the phases -/

theorem handles_of_grant_revoke {Δ : List Event}
    (h : ∀ e ∈ Δ, isGrantEv e = true ∨ isRevokeEv e = true) :
    openedHandles Δ = [] ∧ closedHandles Δ = [] := by
  induction Δ with
  | nil => exact ⟨rfl, rfl⟩
  | cons e rest ih =>
    obtain ⟨ho, hc⟩ := ih (fun x hx => h x (by simp [hx]))
    have he := h e (by simp)
    match e, he with
    | .grantCall v p ok, _ =>
      simp [openedHandles, closedHandles, List.filterMap_cons] at ho hc ⊢
      exact ⟨by simpa [openedHandles] using ho, by simpa [closedHandles] using hc⟩
    | .revokeCall v p, _ =>
      simp [openedHandles, closedHandles, List.filterMap_cons] at ho hc ⊢
      exact ⟨by simpa [openedHandles] using ho, by simpa [closedHandles] using hc⟩

theorem startPhase_handles (env : Env) (vmID : String) (granted : List String)
    (s : St) (hs : closedHandles s.tr = openedHandles s.tr) :
    closedHandles (startPhase env vmID granted s).1.tr =
      openedHandles (startPhase env vmID granted s).1.tr := by
  by_cases h : env.opOk s.nOp = true
  · by_cases hst : env.startOk = true
    · by_cases hw : env.waitOk s.nWait = true
      · rw [startPhase_ok env vmID granted s h hst hw]
        simp only [openedHandles_append, closedHandles_append, hs]
        all_goals simp [openedHandles, closedHandles]
      · have hw' : env.waitOk s.nWait = false := by simpa using hw
        rw [startPhase_waitFail env vmID granted s h hst hw']
        simp only [openedHandles_append, closedHandles_append, hs,
          openedHandles_tacEvs, closedHandles_tacEvs, openedHandles_revokeEvs,
          closedHandles_revokeEvs]
        all_goals simp [openedHandles, closedHandles]
    · have hst' : env.startOk = false := by simpa using hst
      rw [startPhase_startFail env vmID granted s h hst']
      simp only [openedHandles_append, closedHandles_append, hs,
        openedHandles_tacEvs, closedHandles_tacEvs, openedHandles_revokeEvs,
        closedHandles_revokeEvs]
      all_goals simp [openedHandles, closedHandles]
  · have h' : env.opOk s.nOp = false := by simpa using h
    rw [startPhase_opFail env vmID granted s h']
    simp only [openedHandles_append, closedHandles_append, hs,
      openedHandles_tacEvs, closedHandles_tacEvs, openedHandles_revokeEvs,
      closedHandles_revokeEvs]
    all_goals simp [openedHandles, closedHandles]

theorem createPhase_handles (env : Env) (vmID : String)
    (doc : ComputeSystemSpec) (granted : List String) (s : St)
    (hs : closedHandles s.tr = openedHandles s.tr) :
    closedHandles (createPhase env vmID doc granted s).1.tr =
      openedHandles (createPhase env vmID doc granted s).1.tr := by
  by_cases h : env.opOk s.nOp = true
  · by_cases hc : env.createOk = true
    · by_cases hw : env.waitOk s.nWait = true
      · rw [createPhase_ok env vmID doc granted s h hc hw]
        apply startPhase_handles
        simp only [openedHandles_append, closedHandles_append, hs]
        all_goals simp [openedHandles, closedHandles]
      · have hw' : env.waitOk s.nWait = false := by simpa using hw
        rw [createPhase_waitFail env vmID doc granted s h hc hw']
        simp only [openedHandles_append, closedHandles_append, hs,
          openedHandles_revokeEvs, closedHandles_revokeEvs]
        all_goals simp [openedHandles, closedHandles]
    · have hc' : env.createOk = false := by simpa using hc
      rw [createPhase_submitFail env vmID doc granted s h hc']
      simp only [openedHandles_append, closedHandles_append, hs,
        openedHandles_revokeEvs, closedHandles_revokeEvs]
      all_goals simp [openedHandles, closedHandles]
  · have h' : env.opOk s.nOp = false := by simpa using h
    rw [createPhase_opFail env vmID doc granted s h']
    simp only [openedHandles_append, closedHandles_append, hs,
      openedHandles_revokeEvs, closedHandles_revokeEvs]
    all_goals simp [openedHandles, closedHandles]

/-! ## Further facts about event segments -/

theorem grantEvs_mem {v : String} {ps : List String} {e : Event}
    (he : e ∈ grantEvs v ps) : ∃ p ∈ ps, e = Event.grantCall v p true := by
  rw [grantEvs] at he
  obtain ⟨p, hp, rfl⟩ := List.mem_map.mp he
  exact ⟨p, hp, rfl⟩

theorem filter_revoke_grantEvs (v : String) (ps : List String) :
    (grantEvs v ps).filter isRevokeEv = [] := by
  induction ps with
  | nil => rfl
  | cons p rest ih =>
    rw [grantEvs] at ih ⊢
    simp only [List.map_cons, List.filter_cons]
    rw [ih]
    rfl

theorem filter_revoke_revokeEvs (v : String) (ps : List String) :
    (revokeEvs v ps).filter isRevokeEv = revokeEvs v ps := by
  induction ps with
  | nil => rfl
  | cons p rest ih =>
    rw [revokeEvs] at ih ⊢
    simp only [List.map_cons, List.filter_cons]
    rw [ih]
    rfl

theorem filter_revoke_tacEvs (env : Env) (a b : Nat) :
    (tacEvs env a b).filter isRevokeEv = [] := by
  by_cases h : env.opOk a = true
  · rw [tacEvs, if_pos h]
    rfl
  · rw [tacEvs, if_neg h]
    rfl

theorem countP_sysClose_grantEvs (v : String) (ps : List String) :
    (grantEvs v ps).countP isSysCloseEv = 0 := by
  induction ps with
  | nil => rfl
  | cons p rest ih =>
    rw [grantEvs] at ih ⊢
    simp only [List.map_cons, List.countP_cons]
    rw [ih]
    rfl

theorem countP_sysClose_revokeEvs (v : String) (ps : List String) :
    (revokeEvs v ps).countP isSysCloseEv = 0 := by
  induction ps with
  | nil => rfl
  | cons p rest ih =>
    rw [revokeEvs] at ih ⊢
    simp only [List.map_cons, List.countP_cons]
    rw [ih]
    rfl

theorem countP_sysClose_tacEvs (env : Env) (a b : Nat) :
    (tacEvs env a b).countP isSysCloseEv = 1 := by
  by_cases h : env.opOk a = true
  · rw [tacEvs, if_pos h]
    rfl
  · rw [tacEvs, if_neg h]
    rfl

theorem tacEvs_wait_timeout (env : Env) (a b : Nat) :
    ∀ h t res ok, Event.waitCall h t res ok ∈ tacEvs env a b → t = 5000 := by
  intro h t res ok hmem
  by_cases hop : env.opOk a = true
  · rw [tacEvs, if_pos hop] at hmem
    simp only [List.mem_cons, List.not_mem_nil, or_false] at hmem
    rcases hmem with h1 | h1 | h1 | h1 | h1
    · simp at h1
    · simp at h1
    · simp only [Event.waitCall.injEq] at h1
      exact h1.2.1
    · simp at h1
    · simp at h1
  · rw [tacEvs, if_neg hop] at hmem
    simp only [List.mem_cons, List.not_mem_nil, or_false] at hmem
    rcases hmem with h1 | h1 <;> simp at h1

theorem grantLoop_nil (env : Env) (vmID : String) (s : St)
    (granted : List String) :
    grantLoop env vmID s granted [] = (s, granted, true) := rfl

theorem createAndStartVM_parseFail (env : Env) (spec : ComputeSystemSpec)
    (name : String) (addGPU : Bool) (e : String)
    (hAbs : makePathsAbsolute env.absFn
      (if spec.owner = "" then { spec with owner := "hcstool" } else spec) =
        .error e) :
    createAndStartVM env spec name addGPU = (St.init, .pathError e) := by
  rw [createAndStartVM, hAbs]

theorem afterParse_gpuEnumFail (env : Env) (spec2 : ComputeSystemSpec)
    (h : env.gpuEnumOk = false) :
    afterParse env spec2 true = (St.init, .gpuEnumError) := by
  rw [afterParse, if_pos ⟨rfl, by simp [h]⟩]

theorem afterParse_noGpu (env : Env) (spec2 : ComputeSystemSpec)
    (he : env.gpuEnumOk = true) (h : env.gpuList = []) :
    afterParse env spec2 true = (St.init, .noGpuFound) := by
  rw [afterParse, if_neg (by simp [he]), if_pos ⟨rfl, h⟩]

theorem grantLoop_handles_init (env : Env) (vmID : String) (ps : List String) :
    openedHandles (grantLoop env vmID St.init [] ps).1.tr = [] ∧
    closedHandles (grantLoop env vmID St.init [] ps).1.tr = [] := by
  obtain ⟨Δ, htr, hkinds, _, _, _⟩ := grantLoop_shape env vmID ps St.init []
  have hΔ : ∀ e ∈ Δ, isGrantEv e = true ∨ isRevokeEv e = true := by
    intro e he
    rcases hkinds e he with ⟨p, hp, ok, rfl⟩ | ⟨p, hp, rfl⟩
    · exact Or.inl rfl
    · exact Or.inr rfl
  obtain ⟨ho, hc⟩ := handles_of_grant_revoke hΔ
  rw [htr]
  constructor
  · simpa [St.init, openedHandles_append] using ho
  · simpa [St.init, closedHandles_append] using hc

/-! ## The GPU-to-virtual-PCI construction, elementwise -/

theorem gpuPciDevsFrom_length (l : List GpuDevice) :
    ∀ i, (gpuPciDevsFrom i l).length = l.length := by
  induction l with
  | nil => intro i; rfl
  | cons g rest ih =>
    intro i
    simp only [gpuPciDevsFrom, List.length_cons, ih (i + 1)]

theorem gpuPciDevsFrom_get (l : List GpuDevice) :
    ∀ (i j : Nat) (hj : j < l.length),
      (gpuPciDevsFrom i l)[j]? =
        some ("gpu-" ++ toString (i + j),
          some ⟨(l.get ⟨j, hj⟩).instanceID, 0xFFFF⟩) := by
  induction l with
  | nil => intro i j hj; exact absurd hj (by simp)
  | cons g rest ih =>
    intro i j hj
    match j with
    | 0 =>
      simp [gpuPciDevsFrom]
    | j' + 1 =>
      have hj' : j' < rest.length := by simpa using hj
      have := ih (i + 1) j' hj'
      rw [gpuPciDevsFrom]
      rw [show (i + (j' + 1)) = (i + 1 + j') from by omega]
      simpa using this

/-! ## Trimming braces from a generated GUID -/

theorem dropWhile_of_forall_false {p : Char → Bool} :
    ∀ {l : List Char}, (∀ c ∈ l, p c = false) → List.dropWhile p l = l
  | [], _ => rfl
  | c :: cs, h => by
    rw [List.dropWhile_cons, h c (by simp)]
    simp

theorem trimBraces_wrap (g : String) (hg : ∀ c ∈ g.data, isBrace c = false) :
    trimBraces ("\x7b" ++ g ++ "\x7d") = g := by
  rcases g with ⟨l⟩
  have hdata : ("\x7b" ++ String.mk l ++ "\x7d") =
      String.mk ('\x7b' :: (l ++ ['\x7d'])) := rfl
  rw [trimBraces, hdata]
  have hl : ∀ c ∈ l, isBrace c = false := hg
  cases l with
  | nil => rfl
  | cons c cs =>
    have hc : isBrace c = false := hl c (by simp)
    have hstep0 : List.dropWhile isBrace
        ('\x7b' :: ((c :: cs) ++ ['\x7d'])) =
        List.dropWhile isBrace ((c :: cs) ++ ['\x7d']) := by
      rw [List.dropWhile_cons]
      rfl
    have hstep1 : List.dropWhile isBrace ((c :: cs) ++ ['\x7d']) =
        (c :: cs) ++ ['\x7d'] := by
      rw [List.cons_append, List.dropWhile_cons, hc]
      simp
    have hrev : ((c :: cs) ++ ['\x7d']).reverse =
        '\x7d' :: (c :: cs).reverse := by simp
    have hstep2 : List.dropWhile isBrace ('\x7d' :: (c :: cs).reverse) =
        (c :: cs).reverse := by
      rw [List.dropWhile_cons]
      simp only [show isBrace '\x7d' = true from rfl, if_true]
      exact dropWhile_of_forall_false
        (fun x hx => hl x (by simpa using List.mem_reverse.mp hx))
    simp only [hstep0, hstep1, hrev, hstep2, List.reverse_reverse]

/-! ## Definitions following the words of the specification -/

/-- Following the words of the specification: whether a path refers to an
existing file of the host filesystem, the filesystem given as the list of
paths of its files.  (`CreateAndStartVM` itself performs no such check.) -/
def fileExists (fs : List String) (p : String) : Bool := fs.contains p

/-- Following the words of the specification: the service result document a
transaction error carries.  In the source only the create-wait failure
return attaches one. -/
def errorDoc : TxResult → Option String
  | .createWaitError res => some res
  | _ => none

theorem noScsi_defaultOwner {spec : ComputeSystemSpec}
    (h : noScsiAttachments spec) :
    noScsiAttachments
      (if spec.owner = "" then { spec with owner := "hcstool" } else spec) := by
  by_cases ho : spec.owner = ""
  · rw [if_pos ho]
    exact h
  · rw [if_neg ho]
    exact h

/-! ## Strict ordering of opened handles (no handle is ever reused) -/

/-- Invariant of the transaction state: closes match opens one for one, the
opened handles are strictly increasing (hence pairwise distinct), and all of
them are below the operation counter. -/
def HInv (s : St) : Prop :=
  closedHandles s.tr = openedHandles s.tr ∧
  List.Pairwise (fun a b => a < b) (openedHandles s.tr) ∧
  ∀ h ∈ openedHandles s.tr, h < s.nOp

theorem pairwise_append_lt {l1 l2 : List Nat} {n : Nat}
    (h1 : List.Pairwise (fun a b => a < b) l1) (hb : ∀ x ∈ l1, x < n)
    (h2 : List.Pairwise (fun a b => a < b) l2) (hl : ∀ x ∈ l2, n ≤ x) :
    List.Pairwise (fun a b => a < b) (l1 ++ l2) := by
  rw [List.pairwise_append]
  exact ⟨h1, h2, fun a ha b hb2 => lt_of_lt_of_le (hb a ha) (hl b hb2)⟩

theorem hinv_extend {s : St} (hs : HInv s) {tr2 : List Event} {n2 : Nat}
    (L : List Nat)
    (hopen : openedHandles tr2 = openedHandles s.tr ++ L)
    (hclose : closedHandles tr2 = closedHandles s.tr ++ L)
    (hL : List.Pairwise (fun a b => a < b) L)
    (hlow : ∀ x ∈ L, s.nOp ≤ x) (hhigh : ∀ x ∈ L, x < n2)
    (hn : s.nOp ≤ n2) :
    closedHandles tr2 = openedHandles tr2 ∧
    List.Pairwise (fun a b => a < b) (openedHandles tr2) ∧
    ∀ h ∈ openedHandles tr2, h < n2 := by
  obtain ⟨h1, h2, h3⟩ := hs
  refine ⟨by rw [hopen, hclose, h1], ?_, ?_⟩
  · rw [hopen]
    exact pairwise_append_lt h2 h3 hL hlow
  · rw [hopen]
    intro x hx
    rcases List.mem_append.mp hx with hx | hx
    · exact lt_of_lt_of_le (h3 x hx) hn
    · exact hhigh x hx

theorem startPhase_hinv (env : Env) (vmID : String) (granted : List String)
    (s : St) (hs : HInv s) : HInv (startPhase env vmID granted s).1 := by
  by_cases h : env.opOk s.nOp = true
  · by_cases hst : env.startOk = true
    · by_cases hw : env.waitOk s.nWait = true
      · rw [startPhase_ok env vmID granted s h hst hw]
        refine hinv_extend hs [s.nOp] ?_ ?_ ?_ ?_ ?_ ?_
        · simp only [openedHandles_append]
          simp [openedHandles]
        · simp only [closedHandles_append]
          simp [closedHandles]
        · simp
        · intro x hx
          simp only [List.mem_singleton] at hx
          omega
        · intro x hx
          simp only [List.mem_singleton] at hx
          subst hx
          show s.nOp < s.nOp + 1
          omega
        · show s.nOp ≤ s.nOp + 1
          omega
      · have hw2 : env.waitOk s.nWait = false := by simpa using hw
        rw [startPhase_waitFail env vmID granted s h hst hw2]
        by_cases ht : env.opOk (s.nOp + 1) = true
        · refine hinv_extend hs [s.nOp, s.nOp + 1] ?_ ?_ ?_ ?_ ?_ ?_
          · simp only [openedHandles_append, openedHandles_tacEvs,
              openedHandles_revokeEvs, ht]
            simp [openedHandles]
          · simp only [closedHandles_append, closedHandles_tacEvs,
              closedHandles_revokeEvs, ht]
            simp [closedHandles]
          · simp
          · intro x hx
            simp only [List.mem_cons, List.mem_singleton,
              List.not_mem_nil, or_false] at hx
            rcases hx with rfl | rfl <;> omega
          · intro x hx
            simp only [List.mem_cons, List.mem_singleton,
              List.not_mem_nil, or_false] at hx
            rcases hx with rfl | rfl <;> · show _ < s.nOp + 2; omega
          · show s.nOp ≤ s.nOp + 2
            omega
        · have ht2 : env.opOk (s.nOp + 1) = false := by simpa using ht
          refine hinv_extend hs [s.nOp] ?_ ?_ ?_ ?_ ?_ ?_
          · simp only [openedHandles_append, openedHandles_tacEvs,
              openedHandles_revokeEvs, ht2]
            simp [openedHandles]
          · simp only [closedHandles_append, closedHandles_tacEvs,
              closedHandles_revokeEvs, ht2]
            simp [closedHandles]
          · simp
          · intro x hx
            simp only [List.mem_singleton] at hx
            omega
          · intro x hx
            simp only [List.mem_singleton] at hx
            subst hx
            show s.nOp < s.nOp + 2
            omega
          · show s.nOp ≤ s.nOp + 2
            omega
    · have hst2 : env.startOk = false := by simpa using hst
      rw [startPhase_startFail env vmID granted s h hst2]
      by_cases ht : env.opOk (s.nOp + 1) = true
      · refine hinv_extend hs [s.nOp, s.nOp + 1] ?_ ?_ ?_ ?_ ?_ ?_
        · simp only [openedHandles_append, openedHandles_tacEvs,
            openedHandles_revokeEvs, ht]
          simp [openedHandles]
        · simp only [closedHandles_append, closedHandles_tacEvs,
            closedHandles_revokeEvs, ht]
          simp [closedHandles]
        · simp
        · intro x hx
          simp only [List.mem_cons, List.mem_singleton,
            List.not_mem_nil, or_false] at hx
          rcases hx with rfl | rfl <;> omega
        · intro x hx
          simp only [List.mem_cons, List.mem_singleton,
            List.not_mem_nil, or_false] at hx
          rcases hx with rfl | rfl <;> · show _ < s.nOp + 2; omega
        · show s.nOp ≤ s.nOp + 2
          omega
      · have ht2 : env.opOk (s.nOp + 1) = false := by simpa using ht
        refine hinv_extend hs [s.nOp] ?_ ?_ ?_ ?_ ?_ ?_
        · simp only [openedHandles_append, openedHandles_tacEvs,
            openedHandles_revokeEvs, ht2]
          simp [openedHandles]
        · simp only [closedHandles_append, closedHandles_tacEvs,
            closedHandles_revokeEvs, ht2]
          simp [closedHandles]
        · simp
        · intro x hx
          simp only [List.mem_singleton] at hx
          omega
        · intro x hx
          simp only [List.mem_singleton] at hx
          subst hx
          show s.nOp < s.nOp + 2
          omega
        · show s.nOp ≤ s.nOp + 2
          omega
  · have h2 : env.opOk s.nOp = false := by simpa using h
    rw [startPhase_opFail env vmID granted s h2]
    by_cases ht : env.opOk (s.nOp + 1) = true
    · refine hinv_extend hs [s.nOp + 1] ?_ ?_ ?_ ?_ ?_ ?_
      · simp only [openedHandles_append, openedHandles_tacEvs,
          openedHandles_revokeEvs, ht]
        simp [openedHandles]
      · simp only [closedHandles_append, closedHandles_tacEvs,
          closedHandles_revokeEvs, ht]
        simp [closedHandles]
      · simp
      · intro x hx
        simp only [List.mem_singleton] at hx
        omega
      · intro x hx
        simp only [List.mem_singleton] at hx
        subst hx
        show s.nOp + 1 < s.nOp + 2
        omega
      · show s.nOp ≤ s.nOp + 2
        omega
    · have ht2 : env.opOk (s.nOp + 1) = false := by simpa using ht
      refine hinv_extend hs [] ?_ ?_ ?_ ?_ ?_ ?_
      · simp only [openedHandles_append, openedHandles_tacEvs,
          openedHandles_revokeEvs, ht2]
        simp [openedHandles]
      · simp only [closedHandles_append, closedHandles_tacEvs,
          closedHandles_revokeEvs, ht2]
        simp [closedHandles]
      · simp
      · intro x hx
        exact absurd hx (List.not_mem_nil x)
      · intro x hx
        exact absurd hx (List.not_mem_nil x)
      · show s.nOp ≤ s.nOp + 2
        omega

theorem createPhase_hinv (env : Env) (vmID : String) (doc : ComputeSystemSpec)
    (granted : List String) (s : St) (hs : HInv s) :
    HInv (createPhase env vmID doc granted s).1 := by
  by_cases h : env.opOk s.nOp = true
  · by_cases hc : env.createOk = true
    · by_cases hw : env.waitOk s.nWait = true
      · rw [createPhase_ok env vmID doc granted s h hc hw]
        apply startPhase_hinv
        refine hinv_extend hs [s.nOp] ?_ ?_ ?_ ?_ ?_ ?_
        · simp only [openedHandles_append]
          simp [openedHandles]
        · simp only [closedHandles_append]
          simp [closedHandles]
        · simp
        · intro x hx
          simp only [List.mem_singleton] at hx
          omega
        · intro x hx
          simp only [List.mem_singleton] at hx
          subst hx
          show s.nOp < s.nOp + 1
          omega
        · show s.nOp ≤ s.nOp + 1
          omega
      · have hw2 : env.waitOk s.nWait = false := by simpa using hw
        rw [createPhase_waitFail env vmID doc granted s h hc hw2]
        refine hinv_extend hs [s.nOp] ?_ ?_ ?_ ?_ ?_ ?_
        · simp only [openedHandles_append, openedHandles_revokeEvs]
          simp [openedHandles]
        · simp only [closedHandles_append, closedHandles_revokeEvs]
          simp [closedHandles]
        · simp
        · intro x hx
          simp only [List.mem_singleton] at hx
          omega
        · intro x hx
          simp only [List.mem_singleton] at hx
          subst hx
          show s.nOp < s.nOp + 1
          omega
        · show s.nOp ≤ s.nOp + 1
          omega
    · have hc2 : env.createOk = false := by simpa using hc
      rw [createPhase_submitFail env vmID doc granted s h hc2]
      refine hinv_extend hs [s.nOp] ?_ ?_ ?_ ?_ ?_ ?_
      · simp only [openedHandles_append, openedHandles_revokeEvs]
        simp [openedHandles]
      · simp only [closedHandles_append, closedHandles_revokeEvs]
        simp [closedHandles]
      · simp
      · intro x hx
        simp only [List.mem_singleton] at hx
        omega
      · intro x hx
        simp only [List.mem_singleton] at hx
        subst hx
        show s.nOp < s.nOp + 1
        omega
      · show s.nOp ≤ s.nOp + 1
        omega
  · have h2 : env.opOk s.nOp = false := by simpa using h
    rw [createPhase_opFail env vmID doc granted s h2]
    refine hinv_extend hs [] ?_ ?_ ?_ ?_ ?_ ?_
    · simp only [openedHandles_append, openedHandles_revokeEvs]
      simp [openedHandles]
    · simp only [closedHandles_append, closedHandles_revokeEvs]
      simp [closedHandles]
    · simp
    · intro x hx
      exact absurd hx (List.not_mem_nil x)
    · intro x hx
      exact absurd hx (List.not_mem_nil x)
    · show s.nOp ≤ s.nOp + 1
      omega

/-! ## Composed create-and-start traces -/

theorem createPhase_full_ok (env : Env) (vmID : String)
    (doc : ComputeSystemSpec) (granted : List String) (s : St)
    (h0 : env.opOk s.nOp = true) (hc : env.createOk = true)
    (hw0 : env.waitOk s.nWait = true) (h1 : env.opOk (s.nOp + 1) = true)
    (hst : env.startOk = true) (hw1 : env.waitOk (s.nWait + 1) = true) :
    createPhase env vmID doc granted s =
      (⟨s.nGrant, s.nOp + 2, s.nWait + 2,
        s.tr ++ [Event.opCreate s.nOp true, Event.createSysCall vmID doc true,
          Event.waitCall s.nOp infinite (env.waitRes s.nWait) true,
          Event.opClose s.nOp, Event.opCreate (s.nOp + 1) true,
          Event.startCall true,
          Event.waitCall (s.nOp + 1) infinite (env.waitRes (s.nWait + 1)) true,
          Event.opClose (s.nOp + 1), Event.sysClose]⟩, .ok vmID) := by
  rw [createPhase_ok env vmID doc granted s h0 hc hw0]
  rw [startPhase_ok env vmID granted
    ⟨s.nGrant, s.nOp + 1, s.nWait + 1,
      s.tr ++ [Event.opCreate s.nOp true, Event.createSysCall vmID doc true,
        Event.waitCall s.nOp infinite (env.waitRes s.nWait) true,
        Event.opClose s.nOp]⟩ h1 hst hw1]
  simp [Nat.add_assoc]

theorem createPhase_startSubmitFail_eq (env : Env) (vmID : String)
    (doc : ComputeSystemSpec) (granted : List String) (s : St)
    (h0 : env.opOk s.nOp = true) (hc : env.createOk = true)
    (hw0 : env.waitOk s.nWait = true) (h1 : env.opOk (s.nOp + 1) = true)
    (hst : env.startOk = false) :
    createPhase env vmID doc granted s =
      (⟨s.nGrant, s.nOp + 3,
        s.nWait + 1 + (if env.opOk (s.nOp + 2) then 1 else 0),
        s.tr ++ [Event.opCreate s.nOp true, Event.createSysCall vmID doc true,
          Event.waitCall s.nOp infinite (env.waitRes s.nWait) true,
          Event.opClose s.nOp, Event.opCreate (s.nOp + 1) true,
          Event.startCall false, Event.opClose (s.nOp + 1)] ++
          tacEvs env (s.nOp + 2) (s.nWait + 1) ++
          revokeEvs vmID granted⟩, .startSubmitError) := by
  rw [createPhase_ok env vmID doc granted s h0 hc hw0]
  rw [startPhase_startFail env vmID granted
    ⟨s.nGrant, s.nOp + 1, s.nWait + 1,
      s.tr ++ [Event.opCreate s.nOp true, Event.createSysCall vmID doc true,
        Event.waitCall s.nOp infinite (env.waitRes s.nWait) true,
        Event.opClose s.nOp]⟩ h1 hst]
  simp [Nat.add_assoc]

theorem createPhase_startWaitFail_eq (env : Env) (vmID : String)
    (doc : ComputeSystemSpec) (granted : List String) (s : St)
    (h0 : env.opOk s.nOp = true) (hc : env.createOk = true)
    (hw0 : env.waitOk s.nWait = true) (h1 : env.opOk (s.nOp + 1) = true)
    (hst : env.startOk = true) (hw1 : env.waitOk (s.nWait + 1) = false) :
    createPhase env vmID doc granted s =
      (⟨s.nGrant, s.nOp + 3,
        s.nWait + 2 + (if env.opOk (s.nOp + 2) then 1 else 0),
        s.tr ++ [Event.opCreate s.nOp true, Event.createSysCall vmID doc true,
          Event.waitCall s.nOp infinite (env.waitRes s.nWait) true,
          Event.opClose s.nOp, Event.opCreate (s.nOp + 1) true,
          Event.startCall true,
          Event.waitCall (s.nOp + 1) infinite (env.waitRes (s.nWait + 1)) false,
          Event.opClose (s.nOp + 1)] ++
          tacEvs env (s.nOp + 2) (s.nWait + 2) ++
          revokeEvs vmID granted⟩, .startWaitError) := by
  rw [createPhase_ok env vmID doc granted s h0 hc hw0]
  rw [startPhase_waitFail env vmID granted
    ⟨s.nGrant, s.nOp + 1, s.nWait + 1,
      s.tr ++ [Event.opCreate s.nOp true, Event.createSysCall vmID doc true,
        Event.waitCall s.nOp infinite (env.waitRes s.nWait) true,
        Event.opClose s.nOp]⟩ h1 hst hw1]
  simp [Nat.add_assoc]

/-! ## Concrete example inputs -/

def exAtt1 : ScsiAttachment := ⟨"VirtualDisk", "C:\\vhd\\a.vhdx"⟩

def exAtt2 : ScsiAttachment := ⟨"VirtualDisk", "b.vhdx"⟩

def exCtrl : ScsiController := ⟨[("0", some exAtt1), ("1", some exAtt2)]⟩

def exDevs : DevicesSpec := ⟨[("0", some exCtrl)], [], "", "", "", "", ""⟩

def exVM : VirtualMachineSpec := ⟨false, "", "", some exDevs⟩

/-- An input document with two SCSI attachments, one path relative. -/
def exSpec : ComputeSystemSpec := ⟨"", some ⟨2, 1⟩, true, some exVM⟩

/-- `exSpec` after the owner default and path resolution against `C:\\w`. -/
def exSpec2 : ComputeSystemSpec :=
  ⟨"hcstool", some ⟨2, 1⟩, true, some ⟨false, "", "",
    some ⟨[("0", some ⟨[("0", some ⟨"VirtualDisk", "C:\\vhd\\a.vhdx"⟩),
      ("1", some ⟨"VirtualDisk", "C:\\w\\b.vhdx"⟩)]⟩)],
      [], "", "", "", "", ""⟩⟩⟩

def exPaths : List String := ["C:\\vhd\\a.vhdx", "C:\\w\\b.vhdx"]

def exGpus : List GpuDevice := [⟨"GPU A", "PCI\\VEN_A"⟩, ⟨"GPU B", "PCI\\VEN_B"⟩]

/-- A document whose virtual-machine section is absent. -/
def specNoVM : ComputeSystemSpec := ⟨"o", none, false, none⟩

/-- An environment in which every external call succeeds. -/
def envA : Env :=
  ⟨goAbsFn "C:\\w", true, [⟨"GPU A", "PCI\\VEN_A"⟩], "\x7bVM-1\x7d",
    fun _ => true, fun _ => true, true, true, true, fun _ => true, fun _ => ""⟩

/-- As `envA`, but the second grant call fails. -/
def envGrantFail : Env :=
  ⟨goAbsFn "C:\\w", true, [⟨"GPU A", "PCI\\VEN_A"⟩], "\x7bVM-1\x7d",
    fun i => i == 0, fun _ => true, true, true, true, fun _ => true, fun _ => ""⟩

/-- As `envA`, but the create submission fails while the wait still returns
the result document `"diag"`. -/
def envCreateFail : Env :=
  ⟨goAbsFn "C:\\w", true, [⟨"GPU A", "PCI\\VEN_A"⟩], "\x7bVM-1\x7d",
    fun _ => true, fun _ => true, false, true, true, fun _ => true,
    fun _ => "diag"⟩

/-- As `envA`, but the start submission fails. -/
def envStartFail : Env :=
  ⟨goAbsFn "C:\\w", true, [⟨"GPU A", "PCI\\VEN_A"⟩], "\x7bVM-1\x7d",
    fun _ => true, fun _ => true, true, false, true, fun _ => true, fun _ => ""⟩

/-- As `envA`, but device discovery returns no GPU. -/
def envNoGpu : Env :=
  ⟨goAbsFn "C:\\w", true, [], "\x7bVM-1\x7d",
    fun _ => true, fun _ => true, true, true, true, fun _ => true, fun _ => ""⟩

/-! ## The claims -/

/-- Claim C1: when path resolution succeeds, the GPU step passes, the
document's SCSI attachment paths `ps` are distinct and the grant step fails
at the (K+1)-th grant after K successes, the transaction aborts with the
access-grant error, its revocations are exactly one revoke per distinct
previously-granted path of this attempt — K of them — and no create-system
or start call is ever issued. -/
theorem claim_C1 (env : Env) (spec : ComputeSystemSpec) (name : String)
    (addGPU : Bool) (spec2 : ComputeSystemSpec)
    (hAbs : makePathsAbsolute env.absFn
      (if spec.owner = "" then { spec with owner := "hcstool" } else spec) =
        .ok spec2)
    (hGpu : addGPU = true → env.gpuEnumOk = true ∧ ¬(env.gpuList = []))
    (ps : List String)
    (hps : extractVHDPaths
      (if addGPU then injectGPU spec2 env.gpuList else spec2) = ps)
    (hnd : ps.Nodup) (K : Nat) (hK : K < ps.length)
    (hbefore : ∀ i, i < K → env.grantOk i = true)
    (hfail : env.grantOk K = false) :
    (createAndStartVM env spec name addGPU).2 = .grantError ∧
    (createAndStartVM env spec name addGPU).1.tr.filter isRevokeEv =
      revokeEvs (trimBraces env.guid) (ps.take K) ∧
    (ps.take K).Nodup ∧
    (revokeEvs (trimBraces env.guid) (ps.take K)).length = K ∧
    ∀ e ∈ (createAndStartVM env spec name addGPU).1.tr,
      isCreateSysEv e = false ∧ isStartEv e = false := by
  rw [createAndStartVM_parse env spec name addGPU spec2 hAbs,
    afterParse_grantFail env spec2 addGPU hGpu ps hps K hK hbefore hfail]
  refine ⟨rfl, ?_, ?_, ?_, ?_⟩
  · simp only [List.filter_append, filter_revoke_grantEvs,
      filter_revoke_revokeEvs]
    simp [isRevokeEv]
  · exact (List.take_sublist K ps).nodup hnd
  · simp [revokeEvs, List.length_take, Nat.min_eq_left (le_of_lt hK)]
  · intro e he
    rcases List.mem_append.mp he with he | he
    · rcases List.mem_append.mp he with he | he
      · obtain ⟨p, hp, rfl⟩ := grantEvs_mem he
        exact ⟨rfl, rfl⟩
      · rcases List.mem_singleton.mp he with rfl
        exact ⟨rfl, rfl⟩
    · obtain ⟨h1, h2, p, hp, rfl⟩ := revokeEvs_kinds _ _ e he
      exact ⟨rfl, rfl⟩

/-- Claim C1 witness: at the concrete environment whose second grant fails,
the transaction aborts with the grant error and revokes exactly the first
(already granted) path. -/
theorem claim_C1_witness :
    (createAndStartVM envGrantFail exSpec "vm" false).2 = .grantError ∧
    (createAndStartVM envGrantFail exSpec "vm" false).1.tr.filter isRevokeEv =
      revokeEvs "VM-1" ["C:\\vhd\\a.vhdx"] := by
  obtain ⟨h1, h2, h3, h4, h5⟩ := claim_C1 envGrantFail exSpec "vm" false
    exSpec2 rfl (fun h => nomatch h) exPaths rfl (by decide) 1 (by decide)
    (fun i hi => by
      have hi0 : i = 0 := by omega
      subst hi0
      rfl)
    rfl
  exact ⟨h1, h2⟩

/-- Claim C2, amended: if the create step fails — submission or wait — no
start call is issued, every granted path is revoked, and the transaction
aborts with a create error; the service result document is attached exactly
when the submission succeeded and the wait failed, while a submission
failure returns the bare error even when a result document is present. -/
theorem claim_C2 (env : Env) (spec : ComputeSystemSpec) (name : String)
    (addGPU : Bool) (spec2 : ComputeSystemSpec)
    (hAbs : makePathsAbsolute env.absFn
      (if spec.owner = "" then { spec with owner := "hcstool" } else spec) =
        .ok spec2)
    (hGpu : addGPU = true → env.gpuEnumOk = true ∧ ¬(env.gpuList = []))
    (ps : List String)
    (hps : extractVHDPaths
      (if addGPU then injectGPU spec2 env.gpuList else spec2) = ps)
    (hgrant : ∀ i, i < ps.length → env.grantOk i = true)
    (hop : env.opOk 0 = true)
    (hfail : env.createOk = false ∨ env.waitOk 0 = false) :
    ((createAndStartVM env spec name addGPU).2 = .createSubmitError ∨
      (createAndStartVM env spec name addGPU).2 =
        .createWaitError (env.waitRes 0)) ∧
    (∀ e ∈ (createAndStartVM env spec name addGPU).1.tr,
      isStartEv e = false) ∧
    (createAndStartVM env spec name addGPU).1.tr.filter isRevokeEv =
      revokeEvs (trimBraces env.guid) ps ∧
    errorDoc (createAndStartVM env spec name addGPU).2 =
      (if env.createOk = true then some (env.waitRes 0) else none) := by
  rw [createAndStartVM_parse env spec name addGPU spec2 hAbs,
    afterParse_grantOk env spec2 addGPU hGpu ps hps hgrant]
  by_cases hc : env.createOk = true
  · have hw : env.waitOk 0 = false := by
      rcases hfail with hf | hf
      · rw [hf] at hc
        cases hc
      · exact hf
    rw [createPhase_waitFail env (trimBraces env.guid)
      (if addGPU then injectGPU spec2 env.gpuList else spec2) ps
      ⟨ps.length, 0, 0, grantEvs (trimBraces env.guid) ps⟩ hop hc hw]
    refine ⟨Or.inr rfl, ?_, ?_, ?_⟩
    · intro e he
      rcases List.mem_append.mp he with he | he
      · rcases List.mem_append.mp he with he | he
        · obtain ⟨p, hp, rfl⟩ := grantEvs_mem he
          rfl
        · simp only [List.mem_cons, List.not_mem_nil, or_false] at he
          rcases he with rfl | rfl | rfl | rfl <;> rfl
      · obtain ⟨h1, h2, p, hp, rfl⟩ := revokeEvs_kinds _ _ e he
        rfl
    · simp only [List.filter_append, filter_revoke_grantEvs,
        filter_revoke_revokeEvs]
      simp [isRevokeEv]
    · rw [if_pos hc]
      rfl
  · have hc2 : env.createOk = false := by simpa using hc
    rw [createPhase_submitFail env (trimBraces env.guid)
      (if addGPU then injectGPU spec2 env.gpuList else spec2) ps
      ⟨ps.length, 0, 0, grantEvs (trimBraces env.guid) ps⟩ hop hc2]
    refine ⟨Or.inl rfl, ?_, ?_, ?_⟩
    · intro e he
      rcases List.mem_append.mp he with he | he
      · rcases List.mem_append.mp he with he | he
        · obtain ⟨p, hp, rfl⟩ := grantEvs_mem he
          rfl
        · simp only [List.mem_cons, List.not_mem_nil, or_false] at he
          rcases he with rfl | rfl | rfl | rfl <;> rfl
      · obtain ⟨h1, h2, p, hp, rfl⟩ := revokeEvs_kinds _ _ e he
        rfl
    · simp only [List.filter_append, filter_revoke_grantEvs,
        filter_revoke_revokeEvs]
      simp [isRevokeEv]
    · rw [if_neg hc]
      rfl

/-- Claim C2 witness: at the concrete environment whose create submission
fails, the transaction ends in a create error and revokes both granted
paths. -/
theorem claim_C2_witness :
    ((createAndStartVM envCreateFail exSpec "vm" false).2 =
        .createSubmitError ∨
      (createAndStartVM envCreateFail exSpec "vm" false).2 =
        .createWaitError (envCreateFail.waitRes 0)) ∧
    (createAndStartVM envCreateFail exSpec "vm" false).1.tr.filter
      isRevokeEv = revokeEvs "VM-1" exPaths := by
  obtain ⟨h1, h2, h3, h4⟩ := claim_C2 envCreateFail exSpec "vm" false exSpec2
    rfl (fun h => nomatch h) exPaths rfl (fun i hi => rfl) rfl (Or.inl rfl)
  exact ⟨h1, h3⟩

/-- Claim C2 counterexample: with the create submission failing while the
wait returns the present result document `"diag"`, the source returns the
bare submission error — the result document is not attached, contradicting
the claim's "carrying the service result document when one is present". -/
theorem claim_C2_counterexample :
    (createAndStartVM envCreateFail exSpec "vm" false).2 =
      .createSubmitError ∧
    errorDoc (createAndStartVM envCreateFail exSpec "vm" false).2 = none ∧
    Event.waitCall 0 infinite "diag" true ∈
      (createAndStartVM envCreateFail exSpec "vm" false).1.tr :=
  ⟨rfl, rfl, by decide⟩

/-- Claim C3: if the start step fails — start submission or its wait — the
trace decomposes as a prefix without terminate, release or revoke events,
then exactly one terminate-and-release sequence (whose wait, when reached,
uses the bounded 5-second timeout), then the revocations; the handle is
released exactly once and the transaction aborts with a start error. -/
theorem claim_C3 (env : Env) (spec : ComputeSystemSpec) (name : String)
    (addGPU : Bool) (spec2 : ComputeSystemSpec)
    (hAbs : makePathsAbsolute env.absFn
      (if spec.owner = "" then { spec with owner := "hcstool" } else spec) =
        .ok spec2)
    (hGpu : addGPU = true → env.gpuEnumOk = true ∧ ¬(env.gpuList = []))
    (ps : List String)
    (hps : extractVHDPaths
      (if addGPU then injectGPU spec2 env.gpuList else spec2) = ps)
    (hgrant : ∀ i, i < ps.length → env.grantOk i = true)
    (hop0 : env.opOk 0 = true) (hcr : env.createOk = true)
    (hw0 : env.waitOk 0 = true) (hop1 : env.opOk 1 = true)
    (hfail : env.startOk = false ∨ env.waitOk 1 = false) :
    ∃ pre w,
      (createAndStartVM env spec name addGPU).1.tr =
        pre ++ tacEvs env 2 w ++ revokeEvs (trimBraces env.guid) ps ∧
      (∀ e ∈ pre, isTermEv e = false ∧ isSysCloseEv e = false ∧
        isRevokeEv e = false) ∧
      (∀ h t res ok, Event.waitCall h t res ok ∈ tacEvs env 2 w →
        t = 5000) ∧
      (createAndStartVM env spec name addGPU).1.tr.countP isSysCloseEv = 1 ∧
      ((createAndStartVM env spec name addGPU).2 = .startSubmitError ∨
        (createAndStartVM env spec name addGPU).2 = .startWaitError) := by
  rw [createAndStartVM_parse env spec name addGPU spec2 hAbs,
    afterParse_grantOk env spec2 addGPU hGpu ps hps hgrant]
  by_cases hst : env.startOk = true
  · have hw1 : env.waitOk 1 = false := by
      rcases hfail with hf | hf
      · rw [hf] at hst
        cases hst
      · exact hf
    rw [createPhase_startWaitFail_eq env (trimBraces env.guid)
      (if addGPU then injectGPU spec2 env.gpuList else spec2) ps
      ⟨ps.length, 0, 0, grantEvs (trimBraces env.guid) ps⟩
      hop0 hcr hw0 hop1 hst hw1]
    refine ⟨grantEvs (trimBraces env.guid) ps ++
      [Event.opCreate 0 true,
       Event.createSysCall (trimBraces env.guid)
         (if addGPU then injectGPU spec2 env.gpuList else spec2) true,
       Event.waitCall 0 infinite (env.waitRes 0) true, Event.opClose 0,
       Event.opCreate 1 true, Event.startCall true,
       Event.waitCall 1 infinite (env.waitRes 1) false, Event.opClose 1],
      2, ?_, ?_, tacEvs_wait_timeout env 2 2, ?_, Or.inr rfl⟩
    · simp
    · intro e he
      rcases List.mem_append.mp he with he | he
      · obtain ⟨p, hp, rfl⟩ := grantEvs_mem he
        exact ⟨rfl, rfl, rfl⟩
      · simp only [List.mem_cons, List.not_mem_nil, or_false] at he
        rcases he with rfl | rfl | rfl | rfl | rfl | rfl | rfl | rfl <;>
          exact ⟨rfl, rfl, rfl⟩
    · simp only [List.countP_append, countP_sysClose_grantEvs,
        countP_sysClose_tacEvs, countP_sysClose_revokeEvs]
      simp [List.countP_cons, isSysCloseEv]
  · have hst2 : env.startOk = false := by simpa using hst
    rw [createPhase_startSubmitFail_eq env (trimBraces env.guid)
      (if addGPU then injectGPU spec2 env.gpuList else spec2) ps
      ⟨ps.length, 0, 0, grantEvs (trimBraces env.guid) ps⟩
      hop0 hcr hw0 hop1 hst2]
    refine ⟨grantEvs (trimBraces env.guid) ps ++
      [Event.opCreate 0 true,
       Event.createSysCall (trimBraces env.guid)
         (if addGPU then injectGPU spec2 env.gpuList else spec2) true,
       Event.waitCall 0 infinite (env.waitRes 0) true, Event.opClose 0,
       Event.opCreate 1 true, Event.startCall false, Event.opClose 1],
      1, ?_, ?_, tacEvs_wait_timeout env 2 1, ?_, Or.inl rfl⟩
    · simp
    · intro e he
      rcases List.mem_append.mp he with he | he
      · obtain ⟨p, hp, rfl⟩ := grantEvs_mem he
        exact ⟨rfl, rfl, rfl⟩
      · simp only [List.mem_cons, List.not_mem_nil, or_false] at he
        rcases he with rfl | rfl | rfl | rfl | rfl | rfl | rfl <;>
          exact ⟨rfl, rfl, rfl⟩
    · simp only [List.countP_append, countP_sysClose_grantEvs,
        countP_sysClose_tacEvs, countP_sysClose_revokeEvs]
      simp [List.countP_cons, isSysCloseEv]

/-- Claim C3 witness: at the concrete environment whose start submission
fails, the system handle is released exactly once and the transaction ends
in a start error. -/
theorem claim_C3_witness :
    (createAndStartVM envStartFail exSpec "vm" false).1.tr.countP
      isSysCloseEv = 1 ∧
    ((createAndStartVM envStartFail exSpec "vm" false).2 =
        .startSubmitError ∨
      (createAndStartVM envStartFail exSpec "vm" false).2 =
        .startWaitError) := by
  obtain ⟨pre, w, h1, h2, h3, h4, h5⟩ := claim_C3 envStartFail exSpec "vm"
    false exSpec2 rfl (fun h => nomatch h) exPaths rfl (fun i hi => rfl)
    rfl rfl rfl rfl (Or.inl rfl)
  exact ⟨h4, h5⟩

/-- Claim C4: on every execution of the transaction — whatever fails — the
closed operation handles are exactly the opened ones, in order, and the
opened handles are pairwise distinct: every opened handle is closed exactly
once, none is leaked and none is closed twice. -/
theorem claim_C4 (env : Env) (spec : ComputeSystemSpec) (name : String)
    (addGPU : Bool) :
    closedHandles (createAndStartVM env spec name addGPU).1.tr =
      openedHandles (createAndStartVM env spec name addGPU).1.tr ∧
    (openedHandles (createAndStartVM env spec name addGPU).1.tr).Nodup := by
  rcases hAbs : makePathsAbsolute env.absFn
      (if spec.owner = "" then { spec with owner := "hcstool" } else spec)
    with e | spec2
  · rw [createAndStartVM_parseFail env spec name addGPU e hAbs]
    exact ⟨rfl, List.nodup_nil⟩
  · rw [createAndStartVM_parse env spec name addGPU spec2 hAbs]
    by_cases h1 : addGPU = true ∧ ¬env.gpuEnumOk = true
    · rw [afterParse, if_pos h1]
      exact ⟨rfl, List.nodup_nil⟩
    · by_cases h2 : addGPU = true ∧ env.gpuList = []
      · rw [afterParse, if_neg h1, if_pos h2]
        exact ⟨rfl, List.nodup_nil⟩
      · rw [afterParse_grant_cases env spec2 addGPU h1 h2]
        obtain ⟨hO, hC⟩ := grantLoop_handles_init env (trimBraces env.guid)
          (extractVHDPaths
            (if addGPU then injectGPU spec2 env.gpuList else spec2))
        by_cases hgl : (grantLoop env (trimBraces env.guid) St.init []
            (extractVHDPaths
              (if addGPU then injectGPU spec2 env.gpuList else spec2))).2.2 =
              true
        · rw [if_pos hgl]
          have hinv : HInv (grantLoop env (trimBraces env.guid) St.init []
              (extractVHDPaths
                (if addGPU then injectGPU spec2 env.gpuList else spec2))).1 :=
            ⟨by rw [hO, hC], by rw [hO]; exact List.Pairwise.nil,
             by rw [hO]; intro x hx; exact absurd hx (List.not_mem_nil x)⟩
          obtain ⟨hc1, hc2, hc3⟩ := createPhase_hinv env (trimBraces env.guid)
            (if addGPU then injectGPU spec2 env.gpuList else spec2)
            (grantLoop env (trimBraces env.guid) St.init []
              (extractVHDPaths
                (if addGPU then injectGPU spec2 env.gpuList else spec2))).2.1
            (grantLoop env (trimBraces env.guid) St.init []
              (extractVHDPaths
                (if addGPU then injectGPU spec2 env.gpuList else spec2))).1
            hinv
          exact ⟨hc1, hc2.imp (fun hab => Nat.ne_of_lt hab)⟩
        · rw [if_neg hgl]
          refine ⟨by rw [hO, hC], ?_⟩
          rw [hO]
          exact List.nodup_nil

/-- Claim C5: GPU injection replaces the virtual-PCI mapping wholesale —
whatever entries were present before — with exactly one entry per supplied
GPU descriptor, the entry of index `j` keyed `"gpu-j"` and carrying the
`j`-th descriptor's instance path together with the auto-assign sentinel
virtual-function value `0xFFFF`. -/
theorem claim_C5 (spec : ComputeSystemSpec) (gpus : List GpuDevice) :
    ∃ vm d, (injectGPU spec gpus).virtualMachine = some vm ∧
      vm.devices = some d ∧
      d.virtualPci = gpuPciDevsFrom 0 gpus ∧
      (gpuPciDevsFrom 0 gpus).length = gpus.length ∧
      ∀ (j : Nat) (hj : j < gpus.length),
        (gpuPciDevsFrom 0 gpus)[j]? =
          some ("gpu-" ++ toString j,
            some ⟨(gpus.get ⟨j, hj⟩).instanceID, 0xFFFF⟩) := by
  refine ⟨_, _, rfl, rfl, rfl, gpuPciDevsFrom_length gpus 0, ?_⟩
  intro j hj
  have h := gpuPciDevsFrom_get gpus 0 j hj
  simpa using h

/-- Claim C5 witness: injecting the two-descriptor discovery result yields
exactly the two virtual-PCI entries keyed gpu-0 and gpu-1. -/
theorem claim_C5_witness :
    ∃ vm d, (injectGPU exSpec exGpus).virtualMachine = some vm ∧
      vm.devices = some d ∧
      d.virtualPci = gpuPciDevsFrom 0 exGpus ∧
      (gpuPciDevsFrom 0 exGpus).length = 2 := by
  obtain ⟨vm, d, h1, h2, h3, h4, h5⟩ := claim_C5 exSpec exGpus
  exact ⟨vm, d, h1, h2, h3, h4⟩

/-- Claim C6, amended: the path-resolution transform is idempotent at the
document level — re-resolving an already-resolved document returns it
unchanged — and resolving an already-absolute path returns its cleaned
normal form (not necessarily the path itself: see the counterexample). -/
theorem claim_C6 (cwd : String) (hcwd : goIsAbs cwd = true)
    (spec spec2 : ComputeSystemSpec)
    (h : makePathsAbsolute (goAbsFn cwd) spec = .ok spec2) :
    makePathsAbsolute (goAbsFn cwd) spec2 = .ok spec2 ∧
    ∀ p, goIsAbs p = true → goAbsFn cwd p = .ok (goClean p) := by
  refine ⟨makePathsAbsolute_idem hcwd spec spec2 h, ?_⟩
  intro p hp
  rw [goAbsFn]
  rw [goAbs_of_abs cwd hp]

/-- Claim C6 witness: re-resolving a resolved document is the identity, and
resolving an absolute path yields its cleaned form. -/
theorem claim_C6_witness :
    makePathsAbsolute (goAbsFn "C:\\w") specNoVM = .ok specNoVM ∧
    goAbsFn "C:\\w" "C:\\x" = .ok (goClean "C:\\x") :=
  ⟨(claim_C6 "C:\\w" rfl specNoVM specNoVM rfl).1,
   (claim_C6 "C:\\w" rfl specNoVM specNoVM rfl).2 "C:\\x" rfl⟩

/-- Claim C6 counterexample: the already-absolute path `C:\\a\\..\\b` is not
returned unchanged by resolution — `filepath.Abs` cleans it to `C:\\b` — so
"resolving an already-absolute path returns it unchanged" fails. -/
theorem claim_C6_counterexample :
    goIsAbs "C:\\a\\..\\b" = true ∧
    goAbsFn "C:\\w" "C:\\a\\..\\b" = .ok "C:\\b" ∧
    goAbsFn "C:\\w" "C:\\a\\..\\b" ≠ .ok "C:\\a\\..\\b" := by
  refine ⟨rfl, rfl, ?_⟩
  intro h
  rw [show goAbsFn "C:\\w" "C:\\a\\..\\b" = Except.ok "C:\\b" from rfl] at h
  injection h with h
  exact absurd h (by decide)

/-- Claim C7, amended: every create-system call of the transaction carries
the minted identity and the transformed document, and — when resolution ran
against an absolute working directory — every SCSI attachment path of that
document is absolute.  The source never checks that the paths refer to
existing host files (see the counterexample). -/
theorem claim_C7 (cwd : String) (hcwd : goIsAbs cwd = true) (env : Env)
    (hEnv : env.absFn = goAbsFn cwd) (spec : ComputeSystemSpec)
    (name : String) (addGPU : Bool) (spec2 : ComputeSystemSpec)
    (hAbs : makePathsAbsolute env.absFn
      (if spec.owner = "" then { spec with owner := "hcstool" } else spec) =
        .ok spec2)
    (v : String) (d : ComputeSystemSpec) (ok : Bool)
    (hmem : Event.createSysCall v d ok ∈
      (createAndStartVM env spec name addGPU).1.tr) :
    v = trimBraces env.guid ∧
    d = (if addGPU then injectGPU spec2 env.gpuList else spec2) ∧
    ∀ p ∈ extractVHDPaths d, goIsAbs p = true := by
  have habs2 : ∀ p ∈ extractVHDPaths
      (if addGPU then injectGPU spec2 env.gpuList else spec2),
      goIsAbs p = true := by
    rw [hEnv] at hAbs
    intro p hp
    cases addGPU with
    | false =>
      rw [if_neg (by simp)] at hp
      exact extract_makePathsAbsolute_abs hcwd _ spec2 hAbs p hp
    | true =>
      rw [if_pos rfl, extract_injectGPU] at hp
      exact extract_makePathsAbsolute_abs hcwd _ spec2 hAbs p hp
  rw [createAndStartVM_parse env spec name addGPU spec2 hAbs] at hmem
  by_cases h1 : addGPU = true ∧ ¬env.gpuEnumOk = true
  · rw [afterParse, if_pos h1] at hmem
    exact absurd hmem (by simp [St.init])
  · by_cases h2 : addGPU = true ∧ env.gpuList = []
    · rw [afterParse, if_neg h1, if_pos h2] at hmem
      exact absurd hmem (by simp [St.init])
    · rw [afterParse_grant_cases env spec2 addGPU h1 h2] at hmem
      obtain ⟨Δg, htrg, hkg, hg1, hg2, hg3⟩ := grantLoop_shape env
        (trimBraces env.guid)
        (extractVHDPaths (if addGPU then injectGPU spec2 env.gpuList else spec2))
        St.init []
      by_cases hgl : (grantLoop env (trimBraces env.guid) St.init []
          (extractVHDPaths
            (if addGPU then injectGPU spec2 env.gpuList else spec2))).2.2 =
            true
      · rw [if_pos hgl] at hmem
        obtain ⟨Δ, htr, hk⟩ := createPhase_shape env (trimBraces env.guid)
          (if addGPU then injectGPU spec2 env.gpuList else spec2)
          (grantLoop env (trimBraces env.guid) St.init []
            (extractVHDPaths
              (if addGPU then injectGPU spec2 env.gpuList else spec2))).2.1
          (grantLoop env (trimBraces env.guid) St.init []
            (extractVHDPaths
              (if addGPU then injectGPU spec2 env.gpuList else spec2))).1
        rw [htr] at hmem
        rcases List.mem_append.mp hmem with hmem | hmem
        · rw [htrg] at hmem
          rcases hkg _ (by simpa [St.init] using hmem) with
            ⟨p, hp, ok2, heq⟩ | ⟨p, hp, heq⟩
          · exact absurd heq (by simp)
          · exact absurd heq (by simp)
        · obtain ⟨hk1, hk2, hk3⟩ := hk _ hmem
          have heq := hk2 rfl
          injection heq with e1 e2 e3
          refine ⟨e1, e2, ?_⟩
          rw [e2]
          exact habs2
      · rw [if_neg hgl] at hmem
        rw [htrg] at hmem
        rcases hkg _ (by simpa [St.init] using hmem) with
          ⟨p, hp, ok2, heq⟩ | ⟨p, hp, heq⟩
        · exact absurd heq (by simp)
        · exact absurd heq (by simp)

/-- Claim C7 witness: in the all-success run the submitted document is the
transformed one, and all of its SCSI attachment paths are absolute. -/
theorem claim_C7_witness :
    "VM-1" = trimBraces envA.guid ∧
    ∀ p ∈ extractVHDPaths exSpec2, goIsAbs p = true := by
  obtain ⟨h1, h2, h3⟩ := claim_C7 "C:\\w" rfl envA rfl exSpec "vm" false
    exSpec2 rfl "VM-1" exSpec2 true (by decide)
  exact ⟨h1, h3⟩

/-- Claim C7 counterexample: the transaction submits a creation call whose
document names the path `C:\\vhd\\a.vhdx`, yet on a host filesystem with no
files that path does not exist — `CreateAndStartVM` performs no existence
check, so "referring to an existing host file" is not an invariant it
establishes. -/
theorem claim_C7_counterexample :
    Event.createSysCall "VM-1" exSpec2 true ∈
      (createAndStartVM envA exSpec "vm" false).1.tr ∧
    "C:\\vhd\\a.vhdx" ∈ extractVHDPaths exSpec2 ∧
    fileExists [] "C:\\vhd\\a.vhdx" = false :=
  ⟨by decide, by decide, rfl⟩

/-- Claim C8: with GPU passthrough requested, a successful but empty device
discovery aborts the transaction with the no-GPU-found error before any call
is traced — in particular before any grant and before any create call. -/
theorem claim_C8 (env : Env) (spec : ComputeSystemSpec) (name : String)
    (spec2 : ComputeSystemSpec)
    (hAbs : makePathsAbsolute env.absFn
      (if spec.owner = "" then { spec with owner := "hcstool" } else spec) =
        .ok spec2)
    (he : env.gpuEnumOk = true) (hl : env.gpuList = []) :
    createAndStartVM env spec name true = (St.init, .noGpuFound) ∧
    (createAndStartVM env spec name true).1.tr = [] := by
  rw [createAndStartVM_parse env spec name true spec2 hAbs,
    afterParse_noGpu env spec2 he hl]
  exact ⟨rfl, rfl⟩

/-- Claim C8 witness: the concrete empty-discovery environment aborts with
the no-GPU-found error and an empty trace. -/
theorem claim_C8_witness :
    createAndStartVM envNoGpu exSpec "vm" true = (St.init, .noGpuFound) ∧
    (createAndStartVM envNoGpu exSpec "vm" true).1.tr = [] :=
  claim_C8 envNoGpu exSpec "vm" exSpec2 rfl rfl rfl

/-- Claim C9: a fully successful transaction returns the minted identity —
the generated braced GUID with its braces stripped — never revokes a
granted path, never terminates the machine, and releases the local system
handle exactly once. -/
theorem claim_C9 (env : Env) (spec : ComputeSystemSpec) (name : String)
    (addGPU : Bool) (spec2 : ComputeSystemSpec)
    (hAbs : makePathsAbsolute env.absFn
      (if spec.owner = "" then { spec with owner := "hcstool" } else spec) =
        .ok spec2)
    (hGpu : addGPU = true → env.gpuEnumOk = true ∧ ¬(env.gpuList = []))
    (ps : List String)
    (hps : extractVHDPaths
      (if addGPU then injectGPU spec2 env.gpuList else spec2) = ps)
    (g : String) (hguid : env.guid = "\x7b" ++ g ++ "\x7d")
    (hg : ∀ c ∈ g.data, isBrace c = false)
    (hgrant : ∀ i, i < ps.length → env.grantOk i = true)
    (hop0 : env.opOk 0 = true) (hop1 : env.opOk 1 = true)
    (hcr : env.createOk = true) (hst : env.startOk = true)
    (hw0 : env.waitOk 0 = true) (hw1 : env.waitOk 1 = true) :
    (createAndStartVM env spec name addGPU).2 = .ok g ∧
    (∀ e ∈ (createAndStartVM env spec name addGPU).1.tr,
      isRevokeEv e = false ∧ isTermEv e = false) ∧
    (createAndStartVM env spec name addGPU).1.tr.countP isSysCloseEv = 1 := by
  have hid : trimBraces env.guid = g := by
    rw [hguid]
    exact trimBraces_wrap g hg
  rw [createAndStartVM_parse env spec name addGPU spec2 hAbs,
    afterParse_grantOk env spec2 addGPU hGpu ps hps hgrant,
    createPhase_full_ok env (trimBraces env.guid)
      (if addGPU then injectGPU spec2 env.gpuList else spec2) ps
      ⟨ps.length, 0, 0, grantEvs (trimBraces env.guid) ps⟩
      hop0 hcr hw0 hop1 hst hw1]
  refine ⟨?_, ?_, ?_⟩
  · show TxResult.ok (trimBraces env.guid) = .ok g
    rw [hid]
  · intro e he
    rcases List.mem_append.mp he with he | he
    · obtain ⟨p, hp, rfl⟩ := grantEvs_mem he
      exact ⟨rfl, rfl⟩
    · simp only [List.mem_cons, List.not_mem_nil, or_false] at he
      rcases he with rfl | rfl | rfl | rfl | rfl | rfl | rfl | rfl | rfl <;>
        exact ⟨rfl, rfl⟩
  · simp only [List.countP_append, countP_sysClose_grantEvs]
    simp [List.countP_cons, isSysCloseEv]

/-- Claim C9 witness: the concrete all-success run returns the bare GUID
VM-1 and releases the handle exactly once. -/
theorem claim_C9_witness :
    (createAndStartVM envA exSpec "vm" false).2 = .ok "VM-1" ∧
    (createAndStartVM envA exSpec "vm" false).1.tr.countP isSysCloseEv = 1 := by
  obtain ⟨h1, h2, h3⟩ := claim_C9 envA exSpec "vm" false exSpec2 rfl
    (fun h => nomatch h) exPaths rfl "VM-1" rfl (by decide)
    (fun i hi => rfl) rfl rfl rfl rfl rfl rfl
  exact ⟨h1, h3⟩

/-- Claim C10: a parsed document whose virtual-machine section, device
section, SCSI controllers or SCSI attachments are absent or nil passes path
resolution as a successful no-op, extracts no VHD path, and its transaction
traces no grant and no revoke call whatever else fails. -/
theorem claim_C10 (env : Env) (spec : ComputeSystemSpec) (name : String)
    (addGPU : Bool) (h : noScsiAttachments spec) :
    makePathsAbsolute env.absFn spec = .ok spec ∧
    extractVHDPaths spec = [] ∧
    ∀ e ∈ (createAndStartVM env spec name addGPU).1.tr,
      isGrantEv e = false ∧ isRevokeEv e = false := by
  have h1spec : noScsiAttachments
      (if spec.owner = "" then { spec with owner := "hcstool" } else spec) :=
    noScsi_defaultOwner h
  have hAbs : makePathsAbsolute env.absFn
      (if spec.owner = "" then { spec with owner := "hcstool" } else spec) =
        .ok (if spec.owner = "" then { spec with owner := "hcstool" } else spec) :=
    makePathsAbsolute_noScsi h1spec env.absFn
  refine ⟨makePathsAbsolute_noScsi h env.absFn, extract_noScsi h, ?_⟩
  rw [createAndStartVM_parse env spec name addGPU
    (if spec.owner = "" then { spec with owner := "hcstool" } else spec) hAbs]
  by_cases h1 : addGPU = true ∧ ¬env.gpuEnumOk = true
  · rw [afterParse, if_pos h1]
    intro e he
    exact absurd he (by simp [St.init])
  · by_cases h2 : addGPU = true ∧ env.gpuList = []
    · rw [afterParse, if_neg h1, if_pos h2]
      intro e he
      exact absurd he (by simp [St.init])
    · rw [afterParse_grant_cases env _ addGPU h1 h2]
      have hext : extractVHDPaths (if addGPU then
          injectGPU (if spec.owner = "" then { spec with owner := "hcstool" }
            else spec) env.gpuList
          else (if spec.owner = "" then { spec with owner := "hcstool" }
            else spec)) = [] := by
        cases addGPU with
        | false =>
          rw [if_neg (by simp)]
          exact extract_noScsi h1spec
        | true =>
          rw [if_pos rfl, extract_injectGPU]
          exact extract_noScsi h1spec
      rw [hext, grantLoop_nil, if_pos rfl]
      obtain ⟨Δ, htr, hk⟩ := createPhase_shape env (trimBraces env.guid)
        (if addGPU then
          injectGPU (if spec.owner = "" then { spec with owner := "hcstool" }
            else spec) env.gpuList
          else (if spec.owner = "" then { spec with owner := "hcstool" }
            else spec)) [] St.init
      rw [htr]
      intro e he
      have he2 : e ∈ Δ := by simpa [St.init] using he
      obtain ⟨hk1, hk2, hk3⟩ := hk e he2
      refine ⟨hk1, ?_⟩
      cases hre : isRevokeEv e with
      | false => rfl
      | true =>
        obtain ⟨p, hp, heq⟩ := hk3 hre
        exact absurd hp (List.not_mem_nil p)

/-- Claim C10 witness: the document without a virtual-machine section
resolves as a no-op, extracts nothing, and its all-success transaction
contains no grant call. -/
theorem claim_C10_witness :
    makePathsAbsolute envA.absFn specNoVM = .ok specNoVM ∧
    extractVHDPaths specNoVM = [] := by
  obtain ⟨h1, h2, h3⟩ := claim_C10 envA specNoVM "vm" false trivial
  exact ⟨h1, h2⟩

end Hcstool
